import Mathlib

/-!
Shallow embedding of the molecule-graph valence-maintenance engine
(`hydrogenUtils`-style module of the orgolab frontend) and proofs about it.

Conventions of the embedding:
* Atom and bond ids are natural numbers.  The source uses `uuidv4()` for
  synthesized atoms and bonds; the spec states that any collision-free
  generator (random UUID or a monotonic counter) satisfies that contract,
  so ids for synthesized objects are drawn from a counter that starts
  strictly above every id occurring in the input molecule (`nextFresh`).
* 2D positions are pairs of real numbers; the JavaScript floating-point
  trigonometry is idealized as exact real arithmetic.
* `Math.atan2` is embedded as the argument of the complex number `x + y*I`,
  which agrees with `atan2` on all of ℝ² (range `(-π, π]`, `atan2 0 0 = 0`).
-/

namespace OrgoLab

/-- The fixed element enumeration of the editor. -/
inductive ElementSymbol
  | C | N | O | P | S | F | Cl | Br | I | H
deriving DecidableEq, Repr

/-- Bond types of the editor. -/
inductive BondType
  | single | double | triple | wedge | dash
deriving DecidableEq, Repr

/-- An atom: opaque id, element symbol and 2D position. -/
structure Atom where
  id : Nat
  element : ElementSymbol
  position : ℝ × ℝ

/-- A bond: opaque id, the two endpoint atom ids, and a bond type. -/
structure Bond where
  id : Nat
  sourceAtomId : Nat
  targetAtomId : Nat
  type : BondType
deriving DecidableEq, Repr

/-- A molecule snapshot: a list of atoms and a list of bonds. -/
structure Molecule where
  atoms : List Atom
  bonds : List Bond

/-- `BOND_ORDER`: integer bond order of each bond type
(wedge and dash count as order 1). -/
def BOND_ORDER : BondType → Nat
  | .single => 1
  | .double => 2
  | .triple => 3
  | .wedge => 1
  | .dash => 1

/-- Modelled from the spec: the Valence Table, which is imported by the
source from `valenceDefinitions` but whose code is not part of the reviewed
sources.  It maps each element to its ordered list of canonical valences
(e.g. carbon `[4]`, nitrogen `[3]`, sulfur `[2, 4, 6]`); hydrogen has no
table entry ("no implicit-hydrogen policy for that element, e.g. hydrogen
itself"). -/
def VALENCES : ElementSymbol → List Nat
  | .C => [4]
  | .N => [3]
  | .O => [2]
  | .P => [3, 5]
  | .S => [2, 4, 6]
  | .F => [1]
  | .Cl => [1]
  | .Br => [1]
  | .I => [1]
  | .H => []

/-- Modelled from the spec: `bestValenceForBondCount(element, current)` of the
missing `valenceDefinitions` module — the smallest canonical valence of the
element that is `≥ current`, or the largest canonical valence if none is
`≥ current`; absent when the element has no table entry. -/
def getBestValenceForBondCount (e : ElementSymbol) (current : Nat) : Option Nat :=
  match (VALENCES e).find? (fun v => decide (current ≤ v)) with
  | some v => some v
  | none => (VALENCES e).getLast?

/-- Modelled from the spec: `canAcceptMoreBonds(element, current, additional)`
of the missing `valenceDefinitions` module — "current bond-order sum +
proposed bondOrder does not exceed the element's maximum canonical valence". -/
def canAcceptMoreBonds (e : ElementSymbol) (current additionalOrder : Nat) : Bool :=
  match (VALENCES e).getLast? with
  | some maxValence => decide (current + additionalOrder ≤ maxValence)
  | none => false

/-- `getAtomBondCount`: total bond order of every bond touching `atomId`
(either endpoint; each bond is counted once). -/
def getAtomBondCount (atomId : Nat) (bonds : List Bond) : Nat :=
  bonds.foldl
    (fun count b =>
      if b.sourceAtomId = atomId ∨ b.targetAtomId = atomId then
        count + BOND_ORDER b.type
      else count)
    0

/-- `getRequiredHydrogens`: how many additional hydrogens an atom needs to
satisfy its preferred valence (`max 0 (target - current)`, via truncated
subtraction). -/
def getRequiredHydrogens (atom : Atom) (bonds : List Bond) : Nat :=
  let currentBonds := getAtomBondCount atom.id bonds
  match getBestValenceForBondCount atom.element currentBonds with
  | none => 0
  | some targetValence => targetValence - currentBonds

/-- One step of the hydrogen-id collection of `getConnectedHydrogens`: for a
bond touching `atomId`, look up the other endpoint in the atom list of `m`
and add its id to the accumulated set when it exists and is a hydrogen
(the accumulator mirrors the JavaScript `Set`: insertion order, no
duplicates). -/
def hydrogenIdStep (atomId : Nat) (m : Molecule) (acc : List Nat) (b : Bond) : List Nat :=
  let connected? : Option Nat :=
    if b.sourceAtomId = atomId then some b.targetAtomId
    else if b.targetAtomId = atomId then some b.sourceAtomId
    else none
  match connected? with
  | none => acc
  | some o =>
    match m.atoms.find? (fun a => a.id == o) with
    | some a => if a.element = .H then (if acc.contains o then acc else acc ++ [o]) else acc
    | none => acc

/-- The id set (as an insertion-ordered duplicate-free list, mirroring the
JavaScript `Set`) of hydrogen atoms directly bonded to `atomId`. -/
def connectedHydrogenIds (atomId : Nat) (m : Molecule) : List Nat :=
  m.bonds.foldl (hydrogenIdStep atomId m) []

/-- `getConnectedHydrogens`: all hydrogen atoms connected to `atomId`
(the atom list filtered by membership in `connectedHydrogenIds`). -/
def getConnectedHydrogens (atomId : Nat) (m : Molecule) : List Atom :=
  m.atoms.filter (fun a => (connectedHydrogenIds atomId m).contains a.id)

/-- All ids mentioned anywhere in a molecule (atom ids, bond ids and bond
endpoint ids). -/
def moleculeIds (m : Molecule) : List Nat :=
  m.atoms.map (·.id) ++ m.bonds.map (·.id)
    ++ m.bonds.map (·.sourceAtomId) ++ m.bonds.map (·.targetAtomId)

/-- The deterministic collision-free id generator of the embedding: a counter
strictly above every id mentioned in the molecule. -/
def nextFresh (m : Molecule) : Nat :=
  (moleculeIds m).foldr max 0 + 1

/-- `updateHydrogensAfterBonding`: removes excess hydrogen atoms (the first
`min(excess, available)` of `getConnectedHydrogens`, together with every bond
touching them) when a new bond pushed the atom over its target valence. -/
def updateHydrogensAfterBonding (atomId : Nat) (m : Molecule) : Molecule :=
  match m.atoms.find? (fun a => a.id == atomId) with
  | none => m
  | some atom =>
    let connectedHydrogens := getConnectedHydrogens atomId m
    let currentBonds := getAtomBondCount atomId m.bonds
    match getBestValenceForBondCount atom.element currentBonds with
    | none => m
    | some targetValence =>
      let excessHydrogens := currentBonds - targetValence
      let hydrogensToRemove := min excessHydrogens connectedHydrogens.length
      if hydrogensToRemove = 0 then m
      else
        let hydrogensToRemoveIds := (connectedHydrogens.take hydrogensToRemove).map (·.id)
        { atoms := m.atoms.filter (fun a => !(hydrogensToRemoveIds.contains a.id)),
          bonds := m.bonds.filter (fun b =>
            !(hydrogensToRemoveIds.contains b.sourceAtomId)
              && !(hydrogensToRemoveIds.contains b.targetAtomId)) }

/-- `canBondAtoms`: both endpoints must exist and each must independently
accept `bondOrder` more bond-order units. -/
def canBondAtoms (sourceAtomId targetAtomId : Nat) (m : Molecule) (bondOrder : Nat) : Bool :=
  match m.atoms.find? (fun a => a.id == sourceAtomId),
        m.atoms.find? (fun a => a.id == targetAtomId) with
  | some sourceAtom, some targetAtom =>
      canAcceptMoreBonds sourceAtom.element (getAtomBondCount sourceAtomId m.bonds) bondOrder
        && canAcceptMoreBonds targetAtom.element (getAtomBondCount targetAtomId m.bonds) bondOrder
  | _, _ => false

/-! ### Geometry: hydrogen placement -/

open Real

/-- `Math.atan2 y x`, embedded as the argument of the complex number
`x + y * I`: range `(-π, π]`, and `atan2 0 0 = 0` as in JavaScript. -/
noncomputable def atan2 (y x : ℝ) : ℝ :=
  Complex.arg ⟨x, y⟩

/-- The angle of a point `p` as seen from a center `c`
(`Math.atan2(p.y - c.y, p.x - c.x)` in the source). -/
noncomputable def angleFrom (c p : ℝ × ℝ) : ℝ :=
  atan2 (p.2 - c.2) (p.1 - c.1)

/-- The candidate angles scanned by the collision-aware placement:
`testAngle` runs from `0` in steps of `π/6` while `testAngle < 2π`,
which in exact arithmetic is `k * π/6` for `k = 0, …, 11`. -/
noncomputable def candidateAngles : List ℝ :=
  (List.range 12).map (fun k : Nat => (k : ℝ) * (π / 6))

/-- The normalized angular distance of the source: for
`angleDiff = |a - b|`, the value `min angleDiff (2π - angleDiff)`. -/
noncomputable def normalizedAngleDiff (a b : ℝ) : ℝ :=
  min |a - b| (2 * π - |a - b|)

/-- `minDistance` of one candidate angle: starting from `2π`, the minimum of
the normalized distances to every existing hydrogen angle and every bonded
heavy-atom angle. -/
noncomputable def candidateMinDistance (c : ℝ) (hydroAngles atomAngles : List ℝ) : ℝ :=
  (hydroAngles ++ atomAngles).foldl (fun acc θ => min acc (normalizedAngleDiff c θ)) (2 * π)

/-- The greedy selection of one placement angle: scan the candidates in
increasing order keeping `(bestAngle, maxDistance)`, initialized `(0, 0)`,
updating whenever a candidate's `minDistance` strictly exceeds the current
`maxDistance`. -/
noncomputable def chooseAngle (hydroAngles atomAngles : List ℝ) : ℝ :=
  (candidateAngles.foldl
    (fun best c =>
      let d := candidateMinDistance c hydroAngles atomAngles
      if best.2 < d then (c, d) else best)
    ((0 : ℝ), (0 : ℝ))).1

/-- The collision-aware placement loop: pick one angle at a time, pushing each
chosen angle onto the existing-hydrogen set before the next iteration (the
source pushes `{angle, distance}` records whose `distance` field is never
read, so only angles are tracked). -/
noncomputable def placeAngles (atomAngles : List ℝ) : List ℝ → Nat → List ℝ
  | _, 0 => []
  | hydroAngles, Nat.succ n =>
    let a := chooseAngle hydroAngles atomAngles
    a :: placeAngles atomAngles (hydroAngles ++ [a]) n

/-- The hydrogen distance used for every placed hydrogen. -/
def hydrogenDistance : ℝ := 30

/-- A synthesized hydrogen atom around `parent` at angle `θ`, with id drawn
from the fresh counter (`fresh + 2*i` for the `i`-th synthesized hydrogen). -/
noncomputable def hydrogenAtomAt (parent : Atom) (fresh i : Nat) (θ : ℝ) : Atom :=
  { id := fresh + 2 * i,
    element := .H,
    position := (parent.position.1 + Real.cos θ * hydrogenDistance,
                 parent.position.2 + Real.sin θ * hydrogenDistance) }

/-- The single bond attaching the `i`-th synthesized hydrogen to its parent
(bond id `fresh + 2*i + 1`). -/
def hydrogenBondAt (parent : Atom) (fresh i : Nat) : Bond :=
  { id := fresh + 2 * i + 1,
    sourceAtomId := parent.id,
    targetAtomId := fresh + 2 * i,
    type := .single }

/-- `addSpecificHydrogens` with an explicit fresh-id counter: simple-mode
placement of `n` hydrogens at angles `i * (2π / max n 3)` and distance 30,
appended (with their single bonds to the parent) to the molecule; a no-op
for `n = 0` (the source's `n <= 0` guard). -/
noncomputable def addSpecificHydrogensFrom (fresh : Nat) (atom : Atom) (m : Molecule)
    (numberOfHydrogens : Nat) : Molecule :=
  if numberOfHydrogens = 0 then m
  else
    let angleStep := 2 * π / (max numberOfHydrogens 3 : Nat)
    { atoms := m.atoms ++ (List.range numberOfHydrogens).map
        (fun i => hydrogenAtomAt atom fresh i ((i : ℝ) * angleStep)),
      bonds := m.bonds ++ (List.range numberOfHydrogens).map
        (fun i => hydrogenBondAt atom fresh i) }

/-- `addSpecificHydrogens`: public entry point, ids drawn above the input
molecule's ids. -/
noncomputable def addSpecificHydrogens (atom : Atom) (m : Molecule) (numberOfHydrogens : Nat) :
    Molecule :=
  addSpecificHydrogensFrom (nextFresh m) atom m numberOfHydrogens

/-- `addHydrogensToAtom` with an explicit fresh-id counter. -/
noncomputable def addHydrogensToAtomFrom (fresh : Nat) (atom : Atom) (m : Molecule) : Molecule :=
  addSpecificHydrogensFrom fresh atom m (getRequiredHydrogens atom m.bonds)

/-- `addHydrogensToAtom`: add the required number of hydrogens for the atom's
preferred valence, simple-mode placement. -/
noncomputable def addHydrogensToAtom (atom : Atom) (m : Molecule) : Molecule :=
  addHydrogensToAtomFrom (nextFresh m) atom m

/-- The angles of the existing hydrogens of `atomId` as seen from `atom`
(`existingPositions` of the source; its `distance` field is never read). -/
noncomputable def existingHydrogenAngles (atom : Atom) (atomId : Nat) (m : Molecule) : List ℝ :=
  (getConnectedHydrogens atomId m).map (fun h => angleFrom atom.position h.position)

/-- The angles of bonded non-hydrogen atoms (`existingAtomAngles` of the
source): for every bond touching `atomId`, look up the other endpoint, drop
missing atoms and hydrogens, and take the angle from `atom`. -/
noncomputable def bondedHeavyAngles (atom : Atom) (atomId : Nat) (m : Molecule) : List ℝ :=
  (((m.bonds.filter (fun b => b.sourceAtomId == atomId || b.targetAtomId == atomId)).filterMap
      (fun b => m.atoms.find? (fun a =>
        a.id == (if b.sourceAtomId = atomId then b.targetAtomId else b.sourceAtomId)))).filter
    (fun a => !(a.element == ElementSymbol.H))).map
    (fun a => angleFrom atom.position a.position)

/-- The angles assigned to the hydrogens synthesized by
`updateHydrogensAfterBondRemoval` for `atom` (empty when no hydrogens are
missing). -/
noncomputable def newHydrogenAngles (atom : Atom) (atomId : Nat) (m : Molecule) : List ℝ :=
  placeAngles (bondedHeavyAngles atom atomId m) (existingHydrogenAngles atom atomId m)
    (getRequiredHydrogens atom m.bonds - (getConnectedHydrogens atomId m).length)

/-- `updateHydrogensAfterBondRemoval`: after a bond was removed from a
non-hydrogen atom, add the missing hydrogens at collision-aware angles;
no-op when the atom is unknown, is a hydrogen, or needs no more hydrogens. -/
noncomputable def updateHydrogensAfterBondRemoval (atomId : Nat) (m : Molecule) : Molecule :=
  match m.atoms.find? (fun a => a.id == atomId) with
  | none => m
  | some atom =>
    if atom.element = .H then m
    else
      let neededHydrogens := getRequiredHydrogens atom m.bonds
      let currentHydrogens := getConnectedHydrogens atomId m
      if neededHydrogens ≤ currentHydrogens.length then m
      else
        let fresh := nextFresh m
        let angles := newHydrogenAngles atom atomId m
        { atoms := m.atoms ++ angles.enum.map (fun p => hydrogenAtomAt atom fresh p.1 p.2),
          bonds := m.bonds ++ (List.range angles.length).map (fun i => hydrogenBondAt atom fresh i) }

/-- The hydrogen-stripping phase of `updateHydrogensAfterBondTypeChange`:
remove every hydrogen currently connected to `atomId`, with every bond
touching one of them. -/
def stripHydrogensOf (atomId : Nat) (m : Molecule) : Molecule :=
  let hydrogenIds := (getConnectedHydrogens atomId m).map (·.id)
  { atoms := m.atoms.filter (fun a => !(hydrogenIds.contains a.id)),
    bonds := m.bonds.filter (fun b =>
      !(hydrogenIds.contains b.sourceAtomId) && !(hydrogenIds.contains b.targetAtomId)) }

/-- One iteration of `updateHydrogensAfterBondTypeChange`'s loop body for a
single atom id, threading the fresh-id counter: skip unknown or hydrogen
atoms; otherwise strip all connected hydrogens and re-add the required
number. -/
noncomputable def bondTypeChangePass (atomId : Nat) (m : Molecule) (f : Nat) : Molecule × Nat :=
  match m.atoms.find? (fun a => a.id == atomId) with
  | none => (m, f)
  | some atom =>
    if atom.element = .H then (m, f)
    else
      let m' := stripHydrogensOf atomId m
      let needed := getRequiredHydrogens atom m'.bonds
      if 0 < needed then (addHydrogensToAtomFrom f atom m', f + 2 * needed)
      else (m', f)

/-- `updateHydrogensAfterBondTypeChange`: reset-and-rebuild the hydrogens of
the two endpoints of a changed bond, processing the source atom first and the
target atom second. -/
noncomputable def updateHydrogensAfterBondTypeChange (sourceAtomId targetAtomId : Nat)
    (m : Molecule) : Molecule :=
  (bondTypeChangePass targetAtomId
    (bondTypeChangePass sourceAtomId m (nextFresh m)).1
    (bondTypeChangePass sourceAtomId m (nextFresh m)).2).1

/-! ### Auxiliary definitions used by the verification -/

/-- Whether a bond touches `atomId` at either endpoint. -/
def incident (atomId : Nat) (b : Bond) : Prop :=
  b.sourceAtomId = atomId ∨ b.targetAtomId = atomId

instance (atomId : Nat) (b : Bond) : Decidable (incident atomId b) := by
  unfold incident; infer_instance

/-- What it takes for a bond `b` of `m` to put the id `x` into the connected
hydrogen set of `atomId`: `x` is the other endpoint of a bond touching
`atomId` (source checked first, as in the code), and the first atom of `m`
with id `x` is a hydrogen. -/
def contributesHydrogen (atomId : Nat) (m : Molecule) (b : Bond) (x : Nat) : Prop :=
  ((b.sourceAtomId = atomId ∧ x = b.targetAtomId)
      ∨ (¬b.sourceAtomId = atomId ∧ b.targetAtomId = atomId ∧ x = b.sourceAtomId))
    ∧ ∃ a, m.atoms.find? (fun y => y.id == x) = some a ∧ a.element = .H

/-- A degenerate self-bond: both endpoints are atom id 7. -/
def selfBond : Bond :=
  { id := 0, sourceAtomId := 7, targetAtomId := 7, type := .single }

/-- A molecule with a carbon (id 0) already carrying five single bonds —
its bond-order sum 5 exceeds carbon's only canonical valence 4, so the
table's fallback target (4) is below the current sum. -/
def overboundCarbon : Molecule :=
  { atoms := [⟨0, .C, ((0 : ℝ), 0)⟩, ⟨1, .H, (1, 0)⟩, ⟨2, .H, (0, 1)⟩,
              ⟨3, .H, (2, 0)⟩, ⟨4, .H, (0, 2)⟩, ⟨5, .H, (3, 0)⟩],
    bonds := [⟨10, 0, 1, .single⟩, ⟨11, 0, 2, .single⟩, ⟨12, 0, 3, .single⟩,
              ⟨13, 0, 4, .single⟩, ⟨14, 0, 5, .single⟩] }

/-- A molecule for the C3 witness: carbon 0 bonded to four hydrogens and one
further carbon, so its bond-order sum 5 exceeds the target 4 by one. -/
def crowdedCarbon : Molecule :=
  { atoms := [⟨0, .C, ((0 : ℝ), 0)⟩, ⟨1, .H, (1, 0)⟩, ⟨2, .H, (0, 1)⟩,
              ⟨3, .H, (2, 0)⟩, ⟨4, .H, (0, 2)⟩, ⟨6, .C, (3, 0)⟩],
    bonds := [⟨10, 0, 1, .single⟩, ⟨11, 0, 2, .single⟩, ⟨12, 0, 3, .single⟩,
              ⟨13, 0, 4, .single⟩, ⟨15, 0, 6, .single⟩] }

/-- The ids removed by `updateHydrogensAfterBonding` for `atomId`: the first
`min(excess, available)` connected hydrogens, in Hydrogen Set Resolver
order. -/
def bondingRemovalIds (atomId : Nat) (m : Molecule) (t : Nat) : List Nat :=
  ((getConnectedHydrogens atomId m).take
    (min (getAtomBondCount atomId m.bonds - t) (getConnectedHydrogens atomId m).length)).map
    (·.id)

/-- Whether an atom is a non-hydrogen ("heavy") atom. -/
def isHeavyAtom (a : Atom) : Bool :=
  !(a.element == ElementSymbol.H)

/-- Whether both endpoints of a bond are ids of non-hydrogen atoms of `m`. -/
def heavyEnds (m : Molecule) (b : Bond) : Bool :=
  m.atoms.any (fun a => a.id == b.sourceAtomId && isHeavyAtom a)
    && m.atoms.any (fun a => a.id == b.targetAtomId && isHeavyAtom a)

/-- A molecule with duplicate atom ids: a hydrogen and a carbon both carry
id 1, and the hydrogen (listed first) is bonded to carbon 0. -/
def shadowedCarbon : Molecule :=
  { atoms := [⟨0, .C, ((0 : ℝ), 0)⟩, ⟨1, .H, (1, 0)⟩, ⟨1, .C, (2, 0)⟩],
    bonds := [⟨5, 0, 1, .single⟩] }

/-- The number of connected hydrogens of the atom id `x` in `m`. -/
def countHydrogens (x : Nat) (m : Molecule) : Nat :=
  (getConnectedHydrogens x m).length

/-- An atom id is "settled" in a molecule when, if it resolves to a
non-hydrogen atom, all bonds touching one of its connected hydrogens are
bonds from the atom to that hydrogen, and its current hydrogen count is
exactly what a strip-and-recount (one bond-type-change pass) would re-add.
Every molecule produced by a bond-type-change pass is settled at the
processed id, and a pass at a settled id cannot change any hydrogen count. -/
def Settled (aid : Nat) (m : Molecule) : Prop :=
  ∀ a, m.atoms.find? (fun y => y.id == aid) = some a → ¬a.element = .H →
    (∀ x ∈ connectedHydrogenIds aid m, ∀ b ∈ m.bonds,
        b.sourceAtomId = x ∨ b.targetAtomId = x →
        b.sourceAtomId = aid ∧ b.targetAtomId = x)
      ∧ countHydrogens aid m = getRequiredHydrogens a (stripHydrogensOf aid m).bonds

/-- The number of hydrogens a bond-type-change pass re-adds for the found
atom. -/
def passNeeded (aid : Nat) (m : Molecule) (a : Atom) : Nat :=
  getRequiredHydrogens a (stripHydrogensOf aid m).bonds

/-- A single unbonded carbon atom. -/
def lonelyCarbon : Molecule :=
  { atoms := [{ id := 0, element := .C, position := ((0 : ℝ), 0) }], bonds := [] }

/-! ### Basic lemmas about bond accounting -/

theorem getAtomBondCount_nil (atomId : Nat) : getAtomBondCount atomId [] = 0 := rfl

theorem getAtomBondCount_foldl_shift (atomId : Nat) (bs : List Bond) (n : Nat) :
    bs.foldl
      (fun count b =>
        if b.sourceAtomId = atomId ∨ b.targetAtomId = atomId then
          count + BOND_ORDER b.type
        else count) n
      = n + bs.foldl
        (fun count b =>
          if b.sourceAtomId = atomId ∨ b.targetAtomId = atomId then
            count + BOND_ORDER b.type
          else count) 0 := by
  induction bs generalizing n with
  | nil => simp
  | cons b bs ih =>
    rw [List.foldl_cons, List.foldl_cons, ih, ih
      (if b.sourceAtomId = atomId ∨ b.targetAtomId = atomId then 0 + BOND_ORDER b.type else 0)]
    by_cases hb : b.sourceAtomId = atomId ∨ b.targetAtomId = atomId
    · simp only [if_pos hb]
      omega
    · simp only [if_neg hb]
      omega

theorem getAtomBondCount_cons (atomId : Nat) (b : Bond) (bs : List Bond) :
    getAtomBondCount atomId (b :: bs)
      = (if incident atomId b then BOND_ORDER b.type else 0) + getAtomBondCount atomId bs := by
  show List.foldl _ _ (b :: bs) = _
  rw [List.foldl_cons, getAtomBondCount_foldl_shift]
  unfold getAtomBondCount incident
  by_cases hb : b.sourceAtomId = atomId ∨ b.targetAtomId = atomId
  · simp only [if_pos hb]
    omega
  · simp only [if_neg hb]

theorem getAtomBondCount_append (atomId : Nat) (bs cs : List Bond) :
    getAtomBondCount atomId (bs ++ cs)
      = getAtomBondCount atomId bs + getAtomBondCount atomId cs := by
  induction bs with
  | nil => simp [getAtomBondCount]
  | cons b bs ih =>
    rw [List.cons_append, getAtomBondCount_cons, getAtomBondCount_cons, ih]
    omega

/-- A list of bonds that all touch `atomId` and all have order 1 contributes
exactly its length to the bond count. -/
theorem getAtomBondCount_of_unit (atomId : Nat) (bs : List Bond)
    (hinc : ∀ b ∈ bs, incident atomId b) (hord : ∀ b ∈ bs, BOND_ORDER b.type = 1) :
    getAtomBondCount atomId bs = bs.length := by
  induction bs with
  | nil => rfl
  | cons b bs ih =>
    rw [getAtomBondCount_cons, if_pos (hinc b (by simp)), hord b (by simp),
      ih (fun x hx => hinc x (by simp [hx])) (fun x hx => hord x (by simp [hx]))]
    simp [Nat.add_comm]

/-- A target valence delivered by the table is one of the element's canonical
valences. -/
theorem getBestValenceForBondCount_mem (e : ElementSymbol) (current t : Nat)
    (h : getBestValenceForBondCount e current = some t) : t ∈ VALENCES e := by
  unfold getBestValenceForBondCount at h
  cases hf : (VALENCES e).find? (fun v => decide (current ≤ v)) with
  | some v =>
    rw [hf] at h
    cases h
    exact List.mem_of_find?_eq_some hf
  | none =>
    rw [hf] at h
    exact List.mem_of_getLast?_eq_some h

/-- Every target valence delivered by the table is at most 6, the largest
canonical valence occurring in it. -/
theorem getBestValenceForBondCount_le_six (e : ElementSymbol) (current t : Nat)
    (h : getBestValenceForBondCount e current = some t) : t ≤ 6 := by
  have hm := getBestValenceForBondCount_mem e current t h
  cases e <;> simp [VALENCES] at hm <;> omega

/-! ### Claim C2: self-bonds in `getAtomBondCount` -/

/-- C2 counterexample: a self-bond's order is counted once, not twice —
`getAtomBondCount` adds the order a single time when either endpoint matches,
so the sum for a lone single self-bond is 1, not 2. -/
theorem claim_C2_counterexample :
    getAtomBondCount 7 [selfBond] = BOND_ORDER selfBond.type
      ∧ getAtomBondCount 7 [selfBond] ≠ 2 * BOND_ORDER selfBond.type := by
  decide

/-- C2 (amended): a bond whose source and target both equal `atomId`
contributes its order exactly once to `getAtomBondCount atomId`. -/
theorem claim_C2_amended (atomId : Nat) (b : Bond) (bs : List Bond)
    (hs : b.sourceAtomId = atomId) (_ht : b.targetAtomId = atomId) :
    getAtomBondCount atomId (b :: bs) = BOND_ORDER b.type + getAtomBondCount atomId bs := by
  have hinc : incident atomId b := Or.inl hs
  rw [getAtomBondCount_cons, if_pos hinc]

/-- C2 witness: the amended theorem applied to the concrete self-bond. -/
theorem claim_C2_witness :
    selfBond.sourceAtomId = 7 ∧ selfBond.targetAtomId = 7
      ∧ getAtomBondCount 7 [selfBond] = BOND_ORDER selfBond.type + getAtomBondCount 7 [] :=
  ⟨rfl, rfl, claim_C2_amended 7 selfBond [] rfl rfl⟩

/-! ### Claim C1: valence satisfaction of `addHydrogensToAtom` -/

/-- C1 counterexample: on the overbound carbon, `bestValenceForBondCount`
returns the target 4 (so a target exists), yet after `addHydrogensToAtom` the
bond-order sum is still 5 ≠ 4: when the target is below the current sum, no
hydrogens are added and the sum stays above the target. -/
theorem claim_C1_counterexample :
    getBestValenceForBondCount ElementSymbol.C (getAtomBondCount 0 overboundCarbon.bonds)
        = some 4
      ∧ getAtomBondCount 0
          (addHydrogensToAtom ⟨0, .C, ((0 : ℝ), 0)⟩ overboundCarbon).bonds ≠ 4 := by
  constructor
  · rfl
  · intro h
    have h5 : getAtomBondCount 0
        (addHydrogensToAtom ⟨0, .C, ((0 : ℝ), 0)⟩ overboundCarbon).bonds = 5 := rfl
    rw [h] at h5
    exact absurd h5 (by decide)

/-- The bond list of `addSpecificHydrogensFrom`: unchanged for count 0,
otherwise the input bonds followed by the synthesized parent-to-hydrogen
single bonds. -/
theorem addSpecificHydrogensFrom_bonds (fresh : Nat) (atom : Atom) (m : Molecule) (n : Nat) :
    (addSpecificHydrogensFrom fresh atom m n).bonds
      = if n = 0 then m.bonds
        else m.bonds ++ (List.range n).map (fun i => hydrogenBondAt atom fresh i) := by
  unfold addSpecificHydrogensFrom
  by_cases h : n = 0
  · rw [if_pos h, if_pos h]
  · rw [if_neg h, if_neg h]

/-- The atom list of `addSpecificHydrogensFrom`: unchanged for count 0,
otherwise the input atoms followed by the synthesized hydrogens at angles
`i * (2π / max n 3)`. -/
theorem addSpecificHydrogensFrom_atoms (fresh : Nat) (atom : Atom) (m : Molecule) (n : Nat) :
    (addSpecificHydrogensFrom fresh atom m n).atoms
      = if n = 0 then m.atoms
        else m.atoms ++ (List.range n).map
          (fun i => hydrogenAtomAt atom fresh i ((i : ℝ) * (2 * π / (max n 3 : Nat)))) := by
  unfold addSpecificHydrogensFrom
  by_cases h : n = 0
  · rw [if_pos h, if_pos h]
  · rw [if_neg h, if_neg h]

/-- A batch of synthesized parent-to-hydrogen bonds contributes exactly its
length to the parent's bond count. -/
theorem hydrogenBondAt_count (atomId fresh : Nat) (atom : Atom) (n : Nat)
    (hp : atom.id = atomId) :
    getAtomBondCount atomId ((List.range n).map (fun i => hydrogenBondAt atom fresh i)) = n := by
  rw [getAtomBondCount_of_unit]
  · simp
  · intro b hb
    simp only [List.mem_map, List.mem_range] at hb
    obtain ⟨i, _, rfl⟩ := hb
    exact Or.inl hp
  · intro b hb
    simp only [List.mem_map, List.mem_range] at hb
    obtain ⟨i, _, rfl⟩ := hb
    rfl

/-- `getRequiredHydrogens` rewritten through a known table answer. -/
theorem getRequiredHydrogens_eq (atom : Atom) (bonds : List Bond) (t : Nat)
    (ht : getBestValenceForBondCount atom.element (getAtomBondCount atom.id bonds) = some t) :
    getRequiredHydrogens atom bonds = t - getAtomBondCount atom.id bonds := by
  simp only [getRequiredHydrogens, ht]

/-- `getRequiredHydrogens` is 0 when the table has no entry. -/
theorem getRequiredHydrogens_eq_zero (atom : Atom) (bonds : List Bond)
    (ht : getBestValenceForBondCount atom.element (getAtomBondCount atom.id bonds) = none) :
    getRequiredHydrogens atom bonds = 0 := by
  simp only [getRequiredHydrogens, ht]

/-- C1 (amended): whenever `bestValenceForBondCount` returns a target valence
that is at least the atom's pre-call bond-order sum, the atom's bond-order sum
in the molecule returned by `addHydrogensToAtom` equals that target. -/
theorem claim_C1_amended (atom : Atom) (m : Molecule) (t : Nat)
    (ht : getBestValenceForBondCount atom.element (getAtomBondCount atom.id m.bonds) = some t)
    (hle : getAtomBondCount atom.id m.bonds ≤ t) :
    getAtomBondCount atom.id (addHydrogensToAtom atom m).bonds = t := by
  unfold addHydrogensToAtom addHydrogensToAtomFrom
  rw [getRequiredHydrogens_eq atom m.bonds t ht, addSpecificHydrogensFrom_bonds]
  by_cases h0 : t - getAtomBondCount atom.id m.bonds = 0
  · rw [if_pos h0]
    omega
  · rw [if_neg h0, getAtomBondCount_append, hydrogenBondAt_count atom.id (nextFresh m) atom _ rfl]
    omega

/-- C1 witness: an isolated carbon atom; the target 4 is at least the current
sum 0, and the amended theorem applies. -/
theorem claim_C1_witness :
    getBestValenceForBondCount ElementSymbol.C
        (getAtomBondCount 0 (Molecule.mk [⟨0, .C, ((0 : ℝ), 0)⟩] []).bonds) = some 4
      ∧ getAtomBondCount 0 (Molecule.mk [⟨0, .C, ((0 : ℝ), 0)⟩] []).bonds ≤ 4
      ∧ getAtomBondCount 0
          (addHydrogensToAtom ⟨0, .C, ((0 : ℝ), 0)⟩ (Molecule.mk [⟨0, .C, ((0 : ℝ), 0)⟩] [])).bonds
          = 4 :=
  ⟨rfl, by decide, claim_C1_amended ⟨0, .C, ((0 : ℝ), 0)⟩ _ 4 rfl (by decide)⟩

/-! ### Claim C7: the bond-feasibility predicate -/

/-- C7: `canBondAtoms` holds exactly when both endpoints exist and each
endpoint independently accepts the proposed extra bond order; in particular
it is false when either endpoint is absent (the right side then has no
witness). -/
theorem claim_C7 (sourceAtomId targetAtomId : Nat) (m : Molecule) (bondOrder : Nat) :
    canBondAtoms sourceAtomId targetAtomId m bondOrder = true
      ↔ ∃ sourceAtom targetAtom,
          m.atoms.find? (fun a => a.id == sourceAtomId) = some sourceAtom
          ∧ m.atoms.find? (fun a => a.id == targetAtomId) = some targetAtom
          ∧ canAcceptMoreBonds sourceAtom.element
              (getAtomBondCount sourceAtomId m.bonds) bondOrder = true
          ∧ canAcceptMoreBonds targetAtom.element
              (getAtomBondCount targetAtomId m.bonds) bondOrder = true := by
  unfold canBondAtoms
  cases hfs : m.atoms.find? (fun a => a.id == sourceAtomId) with
  | none => simp
  | some sa =>
    cases hft : m.atoms.find? (fun a => a.id == targetAtomId) with
    | none => simp
    | some ta => simp [Bool.and_eq_true]

/-! ### Claim C9: unknown atom ids are silent no-ops -/

/-- C9: when the given atom id matches no atom of the molecule, each of the
three reconciliation operations returns the input molecule unchanged (for the
two-endpoint bond-type-change operation, with both call ids absent, covering
in particular calls with the unknown id in both slots). -/
theorem claim_C9 (m : Molecule) (sId tId : Nat)
    (hs : ∀ a ∈ m.atoms, a.id ≠ sId) (ht : ∀ a ∈ m.atoms, a.id ≠ tId) :
    updateHydrogensAfterBonding sId m = m
      ∧ updateHydrogensAfterBondRemoval sId m = m
      ∧ updateHydrogensAfterBondTypeChange sId tId m = m := by
  have hfs : m.atoms.find? (fun a => a.id == sId) = none := by
    rw [List.find?_eq_none]
    intro a ha
    simpa using hs a ha
  have hft : m.atoms.find? (fun a => a.id == tId) = none := by
    rw [List.find?_eq_none]
    intro a ha
    simpa using ht a ha
  refine ⟨?_, ?_, ?_⟩
  · unfold updateHydrogensAfterBonding
    rw [hfs]
  · unfold updateHydrogensAfterBondRemoval
    rw [hfs]
  · unfold updateHydrogensAfterBondTypeChange bondTypeChangePass
    simp only [hfs, hft]

/-- C9 witness: the empty molecule with ids 0 and 1. -/
theorem claim_C9_witness :
    updateHydrogensAfterBonding 0 (Molecule.mk [] []) = Molecule.mk [] []
      ∧ updateHydrogensAfterBondRemoval 0 (Molecule.mk [] []) = Molecule.mk [] []
      ∧ updateHydrogensAfterBondTypeChange 0 1 (Molecule.mk [] []) = Molecule.mk [] [] :=
  claim_C9 (Molecule.mk [] []) 0 1 (by intro a ha; cases ha) (by intro a ha; cases ha)

/-! ### Claim C3: excess-hydrogen removal after bonding -/

/-- C3: when the atom exists and has a table target, `updateHydrogensAfterBonding`
removes exactly the first `min(max 0 (current - target), available)` connected
hydrogens (in Hydrogen Set Resolver order) together with every bond touching
one of them, and nothing else: the result is the input filtered by those ids
on both atoms and bonds, so no atom or bond is ever added. -/
theorem claim_C3 (atomId : Nat) (m : Molecule) (a : Atom) (t : Nat)
    (hfind : m.atoms.find? (fun x => x.id == atomId) = some a)
    (ht : getBestValenceForBondCount a.element (getAtomBondCount atomId m.bonds) = some t) :
    (updateHydrogensAfterBonding atomId m).atoms
        = m.atoms.filter (fun x => !((bondingRemovalIds atomId m t).contains x.id))
      ∧ (updateHydrogensAfterBonding atomId m).bonds
        = m.bonds.filter (fun b =>
            !((bondingRemovalIds atomId m t).contains b.sourceAtomId)
              && !((bondingRemovalIds atomId m t).contains b.targetAtomId)) := by
  unfold updateHydrogensAfterBonding
  rw [hfind]
  simp only [ht, bondingRemovalIds]
  by_cases hN :
      min (getAtomBondCount atomId m.bonds - t) (getConnectedHydrogens atomId m).length = 0
  · rw [if_pos hN, hN]
    simp [List.filter_eq_self]
  · rw [if_neg hN]
    exact ⟨rfl, rfl⟩

/-- C3 witness: the theorem applied to the crowded carbon (one excess
hydrogen gets removed). -/
theorem claim_C3_witness :
    (updateHydrogensAfterBonding 0 crowdedCarbon).atoms
        = crowdedCarbon.atoms.filter (fun x => !((bondingRemovalIds 0 crowdedCarbon 4).contains x.id))
      ∧ (updateHydrogensAfterBonding 0 crowdedCarbon).bonds
        = crowdedCarbon.bonds.filter (fun b =>
            !((bondingRemovalIds 0 crowdedCarbon 4).contains b.sourceAtomId)
              && !((bondingRemovalIds 0 crowdedCarbon 4).contains b.targetAtomId)) :=
  claim_C3 0 crowdedCarbon ⟨0, .C, ((0 : ℝ), 0)⟩ 4 rfl rfl

/-! ### Claim C6: simple-mode hydrogen placement -/

/-- C6: for any count `n > 0`, `addSpecificHydrogens` appends exactly `n`
synthesized hydrogens, the `i`-th at angle `i * (2π / max n 3)` and at
distance 30 from the parent, each with a new single bond from the parent, and
leaves all prior atoms and bonds unchanged in order. -/
theorem claim_C6 (atom : Atom) (m : Molecule) (n : Nat) (hn : 0 < n) :
    (addSpecificHydrogens atom m n).atoms
        = m.atoms ++ (List.range n).map
            (fun i => hydrogenAtomAt atom (nextFresh m) i ((i : ℝ) * (2 * π / (max n 3 : Nat))))
      ∧ (addSpecificHydrogens atom m n).bonds
        = m.bonds ++ (List.range n).map (fun i => hydrogenBondAt atom (nextFresh m) i)
      ∧ ∀ h ∈ (addSpecificHydrogens atom m n).atoms.drop m.atoms.length,
          (h.position.1 - atom.position.1) ^ 2 + (h.position.2 - atom.position.2) ^ 2
              = hydrogenDistance ^ 2
            ∧ h.element = .H := by
  have hne : n ≠ 0 := Nat.pos_iff_ne_zero.mp hn
  have hA := addSpecificHydrogensFrom_atoms (nextFresh m) atom m n
  have hB := addSpecificHydrogensFrom_bonds (nextFresh m) atom m n
  rw [if_neg hne] at hA hB
  unfold addSpecificHydrogens
  refine ⟨hA, hB, ?_⟩
  rw [hA, List.drop_left]
  intro h hh
  simp only [List.mem_map, List.mem_range] at hh
  obtain ⟨i, _, rfl⟩ := hh
  constructor
  · simp only [hydrogenAtomAt]
    have hsc := Real.sin_sq_add_cos_sq ((i : ℝ) * (2 * π / (max n 3 : Nat)))
    linear_combination (hydrogenDistance ^ 2) * hsc
  · rfl

/-- C6 witness: three hydrogens around an isolated carbon, at angles
`0, 2π/3, 4π/3` (that is, `i * (2π / max 3 3)`). -/
theorem claim_C6_witness :
    (addSpecificHydrogens ⟨0, .C, ((0 : ℝ), 0)⟩ (Molecule.mk [⟨0, .C, ((0 : ℝ), 0)⟩] []) 3).atoms
        = (Molecule.mk [⟨0, .C, ((0 : ℝ), 0)⟩] []).atoms ++ (List.range 3).map
            (fun i => hydrogenAtomAt ⟨0, .C, ((0 : ℝ), 0)⟩
              (nextFresh (Molecule.mk [⟨0, .C, ((0 : ℝ), 0)⟩] [])) i
              ((i : ℝ) * (2 * π / (max 3 3 : Nat))))
      ∧ (addSpecificHydrogens ⟨0, .C, ((0 : ℝ), 0)⟩ (Molecule.mk [⟨0, .C, ((0 : ℝ), 0)⟩] []) 3).bonds
        = (Molecule.mk [⟨0, .C, ((0 : ℝ), 0)⟩] []).bonds ++ (List.range 3).map
            (fun i => hydrogenBondAt ⟨0, .C, ((0 : ℝ), 0)⟩
              (nextFresh (Molecule.mk [⟨0, .C, ((0 : ℝ), 0)⟩] [])) i)
      ∧ ∀ h ∈ (addSpecificHydrogens ⟨0, .C, ((0 : ℝ), 0)⟩
            (Molecule.mk [⟨0, .C, ((0 : ℝ), 0)⟩] []) 3).atoms.drop
            (Molecule.mk [⟨0, .C, ((0 : ℝ), 0)⟩] []).atoms.length,
          (h.position.1 - (⟨0, .C, ((0 : ℝ), 0)⟩ : Atom).position.1) ^ 2
              + (h.position.2 - (⟨0, .C, ((0 : ℝ), 0)⟩ : Atom).position.2) ^ 2
              = hydrogenDistance ^ 2
            ∧ h.element = .H :=
  claim_C6 ⟨0, .C, ((0 : ℝ), 0)⟩ (Molecule.mk [⟨0, .C, ((0 : ℝ), 0)⟩] []) 3 (by decide)

/-! ### Membership infrastructure for the hydrogen set and the strip phase -/

theorem Molecule.ext' (m₁ m₂ : Molecule) (h₁ : m₁.atoms = m₂.atoms) (h₂ : m₁.bonds = m₂.bonds) :
    m₁ = m₂ := by
  cases m₁
  cases m₂
  cases h₁
  cases h₂
  rfl

theorem pairFst {α β : Type} (x : α) (y : β) : (x, y).1 = x := rfl

theorem pairSnd {α β : Type} (x : α) (y : β) : (x, y).2 = y := rfl

theorem mkAtoms (A : List Atom) (B : List Bond) : (Molecule.mk A B).atoms = A := rfl

theorem mkBonds (A : List Atom) (B : List Bond) : (Molecule.mk A B).bonds = B := rfl

/-- The atom delivered by the by-id search has the searched id. -/
theorem found_id_eq {aid : Nat} {m : Molecule} {a : Atom}
    (h : m.atoms.find? (fun x => x.id == aid) = some a) : a.id = aid := by
  simpa using List.find?_some h

/-- A by-id search for `x` delivers an atom whose id is `x`. -/
theorem found_id_eq_of_pred {x : Nat} {l : List Atom} {a : Atom}
    (h : l.find? (fun y => y.id == x) = some a) : a.id = x := by
  simpa using List.find?_some h

/-- Filtering cannot change the result of a successful first-match search when
the found element survives the filter. -/
theorem find?_filter_of_found {α : Type} (l : List α) (p q : α → Bool) (v : α)
    (h : l.find? p = some v) (hq : q v = true) :
    (l.filter q).find? p = some v := by
  induction l with
  | nil => cases h
  | cons a l ih =>
    by_cases hpa : p a
    · rw [List.find?_cons_of_pos _ hpa] at h
      cases h
      rw [List.filter_cons, if_pos hq, List.find?_cons_of_pos _ hpa]
    · rw [List.find?_cons_of_neg _ hpa] at h
      rw [List.filter_cons]
      by_cases hqa : q a
      · rw [if_pos hqa, List.find?_cons_of_neg _ hpa]
        exact ih h
      · rw [if_neg hqa]
        exact ih h

/-- An unsuccessful first-match search stays unsuccessful on any filtering. -/
theorem find?_filter_of_none {α : Type} (l : List α) (p q : α → Bool)
    (h : l.find? p = none) : (l.filter q).find? p = none := by
  rw [List.find?_eq_none] at h ⊢
  intro x hx
  exact h x (List.mem_filter.mp hx).1

theorem le_foldr_max (x : Nat) (l : List Nat) (h : x ∈ l) : x ≤ l.foldr max 0 := by
  induction l with
  | nil => cases h
  | cons y l ih =>
    rcases List.mem_cons.mp h with rfl | h
    · exact Nat.le_max_left _ _
    · exact Nat.le_trans (ih h) (Nat.le_max_right _ _)

theorem atom_id_lt_nextFresh (m : Molecule) (a : Atom) (h : a ∈ m.atoms) :
    a.id < nextFresh m := by
  have hmem : a.id ∈ moleculeIds m := by
    unfold moleculeIds
    refine List.mem_append.mpr (Or.inl (List.mem_append.mpr (Or.inl
      (List.mem_append.mpr (Or.inl ?_)))))
    exact List.mem_map.mpr ⟨a, h, rfl⟩
  have := le_foldr_max _ _ hmem
  unfold nextFresh
  omega

theorem bond_source_lt_nextFresh (m : Molecule) (b : Bond) (h : b ∈ m.bonds) :
    b.sourceAtomId < nextFresh m := by
  have hmem : b.sourceAtomId ∈ moleculeIds m := by
    unfold moleculeIds
    refine List.mem_append.mpr (Or.inl (List.mem_append.mpr (Or.inr ?_)))
    exact List.mem_map.mpr ⟨b, h, rfl⟩
  have := le_foldr_max _ _ hmem
  unfold nextFresh
  omega

theorem bond_target_lt_nextFresh (m : Molecule) (b : Bond) (h : b ∈ m.bonds) :
    b.targetAtomId < nextFresh m := by
  have hmem : b.targetAtomId ∈ moleculeIds m := by
    unfold moleculeIds
    exact List.mem_append.mpr (Or.inr (List.mem_map.mpr ⟨b, h, rfl⟩))
  have := le_foldr_max _ _ hmem
  unfold nextFresh
  omega

/-- One step of the hydrogen-id collection adds exactly the contribution of
its bond. -/
theorem mem_hydrogenIdStep (atomId : Nat) (m : Molecule) (acc : List Nat) (b : Bond) (x : Nat) :
    x ∈ hydrogenIdStep atomId m acc b ↔ x ∈ acc ∨ contributesHydrogen atomId m b x := by
  unfold hydrogenIdStep contributesHydrogen
  by_cases hs : b.sourceAtomId = atomId
  · simp only [if_pos hs]
    split
    next a hf =>
      by_cases haH : a.element = .H
      · rw [if_pos haH]
        by_cases hacc : acc.contains b.targetAtomId
        · rw [if_pos hacc]
          constructor
          · exact Or.inl
          · rintro (h | ⟨⟨-, rfl⟩ | ⟨hns, -, -⟩, -⟩)
            · exact h
            · simpa using hacc
            · exact absurd hs hns
        · rw [if_neg hacc]
          simp only [List.mem_append, List.mem_singleton]
          constructor
          · rintro (h | rfl)
            · exact Or.inl h
            · exact Or.inr ⟨Or.inl ⟨hs, rfl⟩, a, hf, haH⟩
          · rintro (h | ⟨⟨-, rfl⟩ | ⟨hns, -, -⟩, -⟩)
            · exact Or.inl h
            · exact Or.inr rfl
            · exact absurd hs hns
      · rw [if_neg haH]
        constructor
        · exact Or.inl
        · rintro (h | ⟨⟨-, rfl⟩ | ⟨hns, -, -⟩, a', ha', ha'H⟩)
          · exact h
          · rw [hf] at ha'
            cases ha'
            exact absurd ha'H haH
          · exact absurd hs hns
    next hf =>
      constructor
      · exact Or.inl
      · rintro (h | ⟨⟨-, rfl⟩ | ⟨hns, -, -⟩, a, ha, -⟩)
        · exact h
        · rw [hf] at ha
          cases ha
        · exact absurd hs hns
  · by_cases htg : b.targetAtomId = atomId
    · simp only [if_neg hs, if_pos htg]
      split
      next a hf =>
        by_cases haH : a.element = .H
        · rw [if_pos haH]
          by_cases hacc : acc.contains b.sourceAtomId
          · rw [if_pos hacc]
            constructor
            · exact Or.inl
            · rintro (h | ⟨⟨hs', -⟩ | ⟨-, -, rfl⟩, -⟩)
              · exact h
              · exact absurd hs' hs
              · simpa using hacc
          · rw [if_neg hacc]
            simp only [List.mem_append, List.mem_singleton]
            constructor
            · rintro (h | rfl)
              · exact Or.inl h
              · exact Or.inr ⟨Or.inr ⟨hs, htg, rfl⟩, a, hf, haH⟩
            · rintro (h | ⟨⟨hs', -⟩ | ⟨-, -, rfl⟩, -⟩)
              · exact Or.inl h
              · exact absurd hs' hs
              · exact Or.inr rfl
        · rw [if_neg haH]
          constructor
          · exact Or.inl
          · rintro (h | ⟨⟨hs', -⟩ | ⟨-, -, rfl⟩, a', ha', ha'H⟩)
            · exact h
            · exact absurd hs' hs
            · rw [hf] at ha'
              cases ha'
              exact absurd ha'H haH
      next hf =>
        constructor
        · exact Or.inl
        · rintro (h | ⟨⟨hs', -⟩ | ⟨-, -, rfl⟩, a, ha, -⟩)
          · exact h
          · exact absurd hs' hs
          · rw [hf] at ha
            cases ha
    · simp only [if_neg hs, if_neg htg]
      constructor
      · exact Or.inl
      · rintro (h | ⟨⟨hs', -⟩ | ⟨-, htg', -⟩, -⟩)
        · exact h
        · exact absurd hs' hs
        · exact absurd htg' htg

theorem mem_foldl_hydrogenIdStep (atomId : Nat) (m : Molecule) (bs : List Bond) :
    ∀ (acc : List Nat) (x : Nat),
      x ∈ bs.foldl (hydrogenIdStep atomId m) acc
        ↔ x ∈ acc ∨ ∃ b ∈ bs, contributesHydrogen atomId m b x := by
  induction bs with
  | nil =>
    intro acc x
    simp
  | cons b bs ih =>
    intro acc x
    rw [List.foldl_cons, ih, mem_hydrogenIdStep]
    constructor
    · rintro ((h | hc) | ⟨b', hb', hc⟩)
      · exact Or.inl h
      · exact Or.inr ⟨b, by simp, hc⟩
      · exact Or.inr ⟨b', by simp [hb'], hc⟩
    · rintro (h | ⟨b', hb', hc⟩)
      · exact Or.inl (Or.inl h)
      · rcases List.mem_cons.mp hb' with rfl | hb'
        · exact Or.inl (Or.inr hc)
        · exact Or.inr ⟨b', hb', hc⟩

/-- The connected-hydrogen id set, characterized: an id is in it exactly when
some bond of the molecule contributes it. -/
theorem mem_connectedHydrogenIds (atomId : Nat) (m : Molecule) (x : Nat) :
    x ∈ connectedHydrogenIds atomId m ↔ ∃ b ∈ m.bonds, contributesHydrogen atomId m b x := by
  unfold connectedHydrogenIds
  rw [mem_foldl_hydrogenIdStep]
  simp

/-- Membership in the resolver's atom list. -/
theorem mem_getConnectedHydrogens (atomId : Nat) (m : Molecule) (a : Atom) :
    a ∈ getConnectedHydrogens atomId m ↔ a ∈ m.atoms ∧ a.id ∈ connectedHydrogenIds atomId m := by
  unfold getConnectedHydrogens
  simp [List.mem_filter]

/-- The ids of the resolver's atoms are exactly the connected-hydrogen ids. -/
theorem mem_getConnectedHydrogens_ids (atomId : Nat) (m : Molecule) (x : Nat) :
    x ∈ (getConnectedHydrogens atomId m).map (·.id) ↔ x ∈ connectedHydrogenIds atomId m := by
  constructor
  · intro hx
    simp only [List.mem_map] at hx
    obtain ⟨a, ha, rfl⟩ := hx
    exact ((mem_getConnectedHydrogens _ _ _).mp ha).2
  · intro hx
    obtain ⟨b, -, -, a, hfa, -⟩ := (mem_connectedHydrogenIds _ _ _).mp hx
    have haid : a.id = x := found_id_eq_of_pred hfa
    exact List.mem_map.mpr
      ⟨a, (mem_getConnectedHydrogens _ _ _).mpr
        ⟨List.mem_of_find?_eq_some hfa, haid ▸ hx⟩, haid⟩

/-- Every connected-hydrogen id names an existing hydrogen: the first atom
with that id is a hydrogen. -/
theorem find?_of_mem_connectedHydrogenIds (atomId : Nat) (m : Molecule) (x : Nat)
    (hx : x ∈ connectedHydrogenIds atomId m) :
    ∃ a, m.atoms.find? (fun y => y.id == x) = some a ∧ a.element = .H := by
  obtain ⟨b, -, -, a, hfa, haH⟩ := (mem_connectedHydrogenIds _ _ _).mp hx
  exact ⟨a, hfa, haH⟩

/-- An id whose first atom is not a hydrogen is never a connected-hydrogen id. -/
theorem not_mem_connectedHydrogenIds_of_found_heavy {m : Molecule} {x : Nat} {a : Atom}
    (hfind : m.atoms.find? (fun y => y.id == x) = some a) (hH : ¬a.element = .H)
    (atomId : Nat) : x ∉ connectedHydrogenIds atomId m := by
  intro hx
  obtain ⟨a', hfa', ha'H⟩ := find?_of_mem_connectedHydrogenIds atomId m x hx
  rw [hfind] at hfa'
  cases hfa'
  exact hH ha'H

/-- Not being named by any resolver atom is the same as not being a
connected-hydrogen id. -/
theorem forall_resolver_ne_iff (atomId : Nat) (m : Molecule) (x : Nat) :
    (∀ y ∈ getConnectedHydrogens atomId m, ¬y.id = x) ↔ x ∉ connectedHydrogenIds atomId m := by
  rw [← mem_getConnectedHydrogens_ids]
  simp [List.mem_map]

/-- Atoms surviving the strip phase. -/
theorem mem_stripHydrogensOf_atoms (atomId : Nat) (m : Molecule) (a : Atom) :
    a ∈ (stripHydrogensOf atomId m).atoms
      ↔ a ∈ m.atoms ∧ a.id ∉ connectedHydrogenIds atomId m := by
  unfold stripHydrogensOf
  simp only [List.mem_filter]
  simp [forall_resolver_ne_iff]

/-- Bonds surviving the strip phase. -/
theorem mem_stripHydrogensOf_bonds (atomId : Nat) (m : Molecule) (b : Bond) :
    b ∈ (stripHydrogensOf atomId m).bonds
      ↔ b ∈ m.bonds ∧ b.sourceAtomId ∉ connectedHydrogenIds atomId m
          ∧ b.targetAtomId ∉ connectedHydrogenIds atomId m := by
  unfold stripHydrogensOf
  simp only [List.mem_filter]
  simp [forall_resolver_ne_iff, and_assoc]

/-! ### The bond-type-change pass, characterized -/

/-- A single bond-type-change pass is either the identity (unknown id or
hydrogen atom) or strip-then-append for the found non-hydrogen atom. -/
theorem bondTypeChangePass_cases (aid : Nat) (m : Molecule) (f : Nat) :
    (bondTypeChangePass aid m f = (m, f)
        ∧ (m.atoms.find? (fun x => x.id == aid) = none
            ∨ ∃ h, m.atoms.find? (fun x => x.id == aid) = some h ∧ h.element = .H))
      ∨ ∃ a, m.atoms.find? (fun x => x.id == aid) = some a
          ∧ ¬a.element = ElementSymbol.H
          ∧ bondTypeChangePass aid m f
            = (Molecule.mk
                ((stripHydrogensOf aid m).atoms
                  ++ (List.range (passNeeded aid m a)).map
                      (fun i => hydrogenAtomAt a f i
                        ((i : ℝ) * (2 * π / (max (passNeeded aid m a) 3 : Nat)))))
                ((stripHydrogensOf aid m).bonds
                  ++ (List.range (passNeeded aid m a)).map (fun i => hydrogenBondAt a f i)),
               f + 2 * passNeeded aid m a) := by
  simp only [bondTypeChangePass]
  split
  next hf => exact Or.inl ⟨rfl, Or.inl hf⟩
  next a hf =>
    by_cases hH : a.element = .H
    · rw [if_pos hH]
      exact Or.inl ⟨rfl, Or.inr ⟨a, hf, hH⟩⟩
    · rw [if_neg hH]
      right
      refine ⟨a, hf, hH, ?_⟩
      by_cases h0 : 0 < getRequiredHydrogens a (stripHydrogensOf aid m).bonds
      · rw [if_pos h0]
        unfold addHydrogensToAtomFrom
        have hA := addSpecificHydrogensFrom_atoms f a (stripHydrogensOf aid m)
          (getRequiredHydrogens a (stripHydrogensOf aid m).bonds)
        have hB := addSpecificHydrogensFrom_bonds f a (stripHydrogensOf aid m)
          (getRequiredHydrogens a (stripHydrogensOf aid m).bonds)
        rw [if_neg (by omega)] at hA hB
        exact Prod.ext (Molecule.ext' _ _ hA hB) rfl
      · rw [if_neg h0]
        have h00 : passNeeded aid m a = 0 := by
          unfold passNeeded
          omega
        rw [h00]
        simp

/-- The fresh counter never decreases across a pass. -/
theorem bondTypeChangePass_snd_le (aid : Nat) (m : Molecule) (f : Nat) :
    f ≤ (bondTypeChangePass aid m f).2 := by
  rcases bondTypeChangePass_cases aid m f with ⟨heq, -⟩ | ⟨a, -, -, heq⟩
  · rw [heq]
  · rw [heq]
    show f ≤ f + 2 * passNeeded aid m a
    omega

/-- A findable non-hydrogen atom is still findable, unchanged, after a pass
for any id. -/
theorem bondTypeChangePass_preserves_found (aid : Nat) (m : Molecule) (f : Nat) {x : Nat}
    {v : Atom} (hfx : m.atoms.find? (fun y => y.id == x) = some v)
    (hv : ¬v.element = .H) :
    (bondTypeChangePass aid m f).1.atoms.find? (fun y => y.id == x) = some v := by
  rcases bondTypeChangePass_cases aid m f with ⟨heq, -⟩ | ⟨a, hf, hH, heq⟩
  · rw [heq]
    exact hfx
  · rw [heq]
    have hnot := not_mem_connectedHydrogenIds_of_found_heavy hfx hv aid
    have hq : (fun a => !((getConnectedHydrogens aid m).map (·.id)).contains a.id) v = true := by
      have hvid : v.id = x := found_id_eq_of_pred hfx
      have : v.id ∉ (getConnectedHydrogens aid m).map (·.id) := by
        rw [mem_getConnectedHydrogens_ids, hvid]
        exact hnot
      simpa using this
    have h1 : (stripHydrogensOf aid m).atoms.find? (fun y => y.id == x) = some v := by
      unfold stripHydrogensOf
      exact find?_filter_of_found _ _ _ _ hfx hq
    show (List.find? _ (_ ++ _)) = _
    rw [List.find?_append, h1]
    rfl

/-- An atom of `m` that is not a connected hydrogen of the processed id
survives the pass. -/
theorem bondTypeChangePass_atom_surv (aid : Nat) (m : Molecule) (f : Nat) {a : Atom}
    (ha : a ∈ m.atoms) (hnot : a.id ∉ connectedHydrogenIds aid m) :
    a ∈ (bondTypeChangePass aid m f).1.atoms := by
  rcases bondTypeChangePass_cases aid m f with ⟨heq, -⟩ | ⟨a', -, -, heq⟩
  · rw [heq]
    exact ha
  · rw [heq]
    show a ∈ _ ++ _
    exact List.mem_append.mpr (Or.inl ((mem_stripHydrogensOf_atoms aid m a).mpr ⟨ha, hnot⟩))

/-- Where a bond of a pass result comes from: either it survived (possibly
with the no-stripped-endpoint certificate when the pass really stripped), or
it is one of the freshly synthesized bonds. -/
theorem bondTypeChangePass_bond_origin (aid : Nat) (m : Molecule) (f : Nat) {b : Bond}
    (hb : b ∈ (bondTypeChangePass aid m f).1.bonds) :
    (b ∈ m.bonds
        ∧ ((bondTypeChangePass aid m f).1 = m
            ∨ (b.sourceAtomId ∉ connectedHydrogenIds aid m
                ∧ b.targetAtomId ∉ connectedHydrogenIds aid m)))
      ∨ (∃ a, m.atoms.find? (fun x => x.id == aid) = some a ∧ ¬a.element = ElementSymbol.H
          ∧ b.sourceAtomId = a.id ∧ f ≤ b.targetAtomId) := by
  rcases bondTypeChangePass_cases aid m f with ⟨heq, -⟩ | ⟨a, hf, hH, heq⟩
  · rw [heq] at hb
    exact Or.inl ⟨hb, Or.inl (by rw [heq])⟩
  · rw [heq] at hb
    rcases List.mem_append.mp hb with hb1 | hb2
    · have := (mem_stripHydrogensOf_bonds aid m b).mp hb1
      exact Or.inl ⟨this.1, Or.inr this.2⟩
    · simp only [List.mem_map, List.mem_range] at hb2
      obtain ⟨i, -, rfl⟩ := hb2
      exact Or.inr ⟨a, hf, hH, rfl, by show f ≤ f + 2 * i; omega⟩

/-! ### Claim C8: no orphan bonds after hydrogen removal -/

/-- `updateHydrogensAfterBonding` always produces a molecule that is the input
filtered by some removal id set on atoms, and by endpoint membership on
bonds (the empty set on the no-op branches). -/
theorem updateHydrogensAfterBonding_shape (atomId : Nat) (m : Molecule) :
    ∃ ids : List Nat,
      (updateHydrogensAfterBonding atomId m).atoms
          = m.atoms.filter (fun a => !(ids.contains a.id))
        ∧ (updateHydrogensAfterBonding atomId m).bonds
          = m.bonds.filter (fun b =>
              !(ids.contains b.sourceAtomId) && !(ids.contains b.targetAtomId)) := by
  simp only [updateHydrogensAfterBonding]
  split
  next hf => exact ⟨[], by simp, by simp⟩
  next a hf =>
    split
    next => exact ⟨[], by simp, by simp⟩
    next t hbv =>
      split
      next h0 => exact ⟨[], by simp, by simp⟩
      next h0 => exact ⟨_, rfl, rfl⟩

/-- C8: after either hydrogen-removal path (`updateHydrogensAfterBonding`, or
the strip phases inside `updateHydrogensAfterBondTypeChange`), a hydrogen of
the input molecule whose id no longer names any atom of the result (a removed
hydrogen) is referenced by no bond of the result at either endpoint. -/
theorem claim_C8 (m : Molecule) (atomId sId tId : Nat) (h : Atom)
    (hmem : h ∈ m.atoms) (_hH : h.element = ElementSymbol.H) :
    ((∀ a ∈ (updateHydrogensAfterBonding atomId m).atoms, ¬a.id = h.id) →
        ∀ b ∈ (updateHydrogensAfterBonding atomId m).bonds,
          ¬b.sourceAtomId = h.id ∧ ¬b.targetAtomId = h.id)
      ∧ ((∀ a ∈ (updateHydrogensAfterBondTypeChange sId tId m).atoms, ¬a.id = h.id) →
        ∀ b ∈ (updateHydrogensAfterBondTypeChange sId tId m).bonds,
          ¬b.sourceAtomId = h.id ∧ ¬b.targetAtomId = h.id) := by
  constructor
  · obtain ⟨ids, hA, hB⟩ := updateHydrogensAfterBonding_shape atomId m
    intro hgone b hb
    rw [hB, List.mem_filter] at hb
    obtain ⟨hbm, hcond⟩ := hb
    have hsrc : b.sourceAtomId ∉ ids ∧ b.targetAtomId ∉ ids := by
      simpa using hcond
    have hhin : h.id ∈ ids := by
      by_contra hno
      have hmem' : h ∈ (updateHydrogensAfterBonding atomId m).atoms := by
        rw [hA, List.mem_filter]
        exact ⟨hmem, by simpa using hno⟩
      exact hgone h hmem' rfl
    constructor
    · intro e
      exact hsrc.1 (by rw [e]; exact hhin)
    · intro e
      exact hsrc.2 (by rw [e]; exact hhin)
  · intro hgone b hb
    simp only [updateHydrogensAfterBondTypeChange] at hgone hb
    have hhlt : h.id < nextFresh m := atom_id_lt_nextFresh m h hmem
    have hle1 : nextFresh m ≤ (bondTypeChangePass sId m (nextFresh m)).2 :=
      bondTypeChangePass_snd_le _ _ _
    rcases bondTypeChangePass_bond_origin tId
        (bondTypeChangePass sId m (nextFresh m)).1
        (bondTypeChangePass sId m (nextFresh m)).2 hb with
      ⟨hb1, hcert2⟩ | ⟨a₂, hf₂, hH₂, hbsrc, hbtgt⟩
    · rcases bondTypeChangePass_bond_origin sId m (nextFresh m) hb1 with
        ⟨hb0, hcert1⟩ | ⟨a₁, hf₁, hH₁, hbsrc, hbtgt⟩
      · constructor
        · intro e
          have hh1 : h ∈ (bondTypeChangePass sId m (nextFresh m)).1.atoms := by
            rcases hcert1 with hid1 | ⟨hs1, -⟩
            · rw [hid1]
              exact hmem
            · exact bondTypeChangePass_atom_surv sId m (nextFresh m) hmem
                (by rw [← e]; exact hs1)
          have hh2 : h ∈ (bondTypeChangePass tId
              (bondTypeChangePass sId m (nextFresh m)).1
              (bondTypeChangePass sId m (nextFresh m)).2).1.atoms := by
            rcases hcert2 with hid2 | ⟨hs2, -⟩
            · rw [hid2]
              exact hh1
            · exact bondTypeChangePass_atom_surv tId _ _ hh1 (by rw [← e]; exact hs2)
          exact hgone h hh2 rfl
        · intro e
          have hh1 : h ∈ (bondTypeChangePass sId m (nextFresh m)).1.atoms := by
            rcases hcert1 with hid1 | ⟨-, ht1⟩
            · rw [hid1]
              exact hmem
            · exact bondTypeChangePass_atom_surv sId m (nextFresh m) hmem
                (by rw [← e]; exact ht1)
          have hh2 : h ∈ (bondTypeChangePass tId
              (bondTypeChangePass sId m (nextFresh m)).1
              (bondTypeChangePass sId m (nextFresh m)).2).1.atoms := by
            rcases hcert2 with hid2 | ⟨-, ht2⟩
            · rw [hid2]
              exact hh1
            · exact bondTypeChangePass_atom_surv tId _ _ hh1 (by rw [← e]; exact ht2)
          exact hgone h hh2 rfl
      · have hfound2 := bondTypeChangePass_preserves_found tId
          (bondTypeChangePass sId m (nextFresh m)).1
          (bondTypeChangePass sId m (nextFresh m)).2
          (bondTypeChangePass_preserves_found sId m (nextFresh m) hf₁ hH₁) hH₁
        have ha₁ := hgone a₁ (List.mem_of_find?_eq_some hfound2)
        constructor
        · intro e
          rw [hbsrc] at e
          exact ha₁ e
        · intro e
          omega
    · have ha₂ := hgone a₂ (List.mem_of_find?_eq_some
        (bondTypeChangePass_preserves_found tId
          (bondTypeChangePass sId m (nextFresh m)).1
          (bondTypeChangePass sId m (nextFresh m)).2 hf₂ hH₂))
      constructor
      · intro e
        rw [hbsrc] at e
        exact ha₂ e
      · intro e
        omega

/-! ### Claim C10: frame conditions of the bond-type-change reconciler -/

/-- With duplicate-free atom ids, the by-id search for a member atom finds
exactly that atom. -/
theorem find?_id_of_nodup (l : List Atom) (hnodup : (l.map (·.id)).Nodup)
    {a : Atom} (ha : a ∈ l) : l.find? (fun y => y.id == a.id) = some a := by
  induction l with
  | nil => cases ha
  | cons x l ih =>
    rw [List.map_cons, List.nodup_cons] at hnodup
    rcases List.mem_cons.mp ha with rfl | ha'
    · rw [List.find?_cons_of_pos]
      simp
    · have hxne : ¬(x.id == a.id) = true := by
        simp only [beq_iff_eq]
        intro hxa
        exact hnodup.1 (hxa ▸ List.mem_map.mpr ⟨a, ha', rfl⟩)
      exact (List.find?_cons_of_neg l hxne).trans (ih hnodup.2 ha')

/-- With duplicate-free ids, a non-hydrogen atom's id is never collected as a
connected hydrogen. -/
theorem heavy_id_not_connectedHydrogenId {m : Molecule}
    (hnodup : (m.atoms.map (·.id)).Nodup) {a : Atom} (ha : a ∈ m.atoms)
    (hheavy : ¬a.element = .H) (aid : Nat) :
    a.id ∉ connectedHydrogenIds aid m :=
  not_mem_connectedHydrogenIds_of_found_heavy (find?_id_of_nodup m.atoms hnodup ha) hheavy aid

/-- All atom ids of a pass result are below the returned fresh counter. -/
theorem bondTypeChangePass_atom_id_lt (aid : Nat) (m : Molecule) (f : Nat)
    (hbound : ∀ a ∈ m.atoms, a.id < f) :
    ∀ a ∈ (bondTypeChangePass aid m f).1.atoms, a.id < (bondTypeChangePass aid m f).2 := by
  intro a ha
  rcases bondTypeChangePass_cases aid m f with ⟨heq, -⟩ | ⟨a', hf, hH, heq⟩
  · rw [heq] at ha ⊢
    exact hbound a ha
  · rw [heq] at ha ⊢
    rcases List.mem_append.mp ha with h1 | h2
    · have hm := ((mem_stripHydrogensOf_atoms aid m a).mp h1).1
      have := hbound a hm
      show a.id < f + 2 * passNeeded aid m a'
      omega
    · simp only [List.mem_map, List.mem_range] at h2
      obtain ⟨i, hi, rfl⟩ := h2
      show f + 2 * i < f + 2 * passNeeded aid m a'
      omega

/-- A pass preserves duplicate-freeness of atom ids. -/
theorem bondTypeChangePass_nodup (aid : Nat) (m : Molecule) (f : Nat)
    (hnodup : (m.atoms.map (·.id)).Nodup) (hbound : ∀ a ∈ m.atoms, a.id < f) :
    ((bondTypeChangePass aid m f).1.atoms.map (·.id)).Nodup := by
  rcases bondTypeChangePass_cases aid m f with ⟨heq, -⟩ | ⟨a', hf, hH, heq⟩
  · rw [heq]
    exact hnodup
  · rw [heq]
    rw [pairFst, mkAtoms, List.map_append]
    refine List.Nodup.append ?_ ?_ ?_
    · exact ((List.filter_sublist _).map _).nodup hnodup
    · rw [List.map_map]
      show ((List.range _).map (fun i => f + 2 * i)).Nodup
      exact List.Nodup.map (fun i j hij => by omega) (List.nodup_range _)
    · intro x hx1 hx2
      simp only [List.mem_map] at hx1
      obtain ⟨a₀, ha₀, rfl⟩ := hx1
      have hlt : a₀.id < f :=
        hbound a₀ ((mem_stripHydrogensOf_atoms aid m a₀).mp ha₀).1
      rw [List.map_map] at hx2
      have : ∃ i, i ∈ List.range (passNeeded aid m a') ∧ f + 2 * i = a₀.id := by
        simpa using hx2
      obtain ⟨i, -, hi⟩ := this
      omega

/-- A pass preserves the list of non-hydrogen atoms (with duplicate-free
ids). -/
theorem bondTypeChangePass_heavy_atoms (aid : Nat) (m : Molecule) (f : Nat)
    (hnodup : (m.atoms.map (·.id)).Nodup) :
    (bondTypeChangePass aid m f).1.atoms.filter isHeavyAtom = m.atoms.filter isHeavyAtom := by
  rcases bondTypeChangePass_cases aid m f with ⟨heq, -⟩ | ⟨a', hf, hH, heq⟩
  · rw [heq]
  · rw [heq]
    rw [pairFst, mkAtoms, List.filter_append]
    have hfresh : ((List.range (passNeeded aid m a')).map
        (fun i => hydrogenAtomAt a' f i
          ((i : ℝ) * (2 * π / (max (passNeeded aid m a') 3 : Nat))))).filter isHeavyAtom
        = [] := by
      rw [List.filter_eq_nil_iff]
      intro x hx
      simp only [List.mem_map, List.mem_range] at hx
      obtain ⟨i, -, rfl⟩ := hx
      simp [isHeavyAtom, hydrogenAtomAt]
    rw [hfresh, List.append_nil]
    unfold stripHydrogensOf
    rw [List.filter_filter]
    apply List.filter_congr
    intro a ha
    by_cases hH' : a.element = .H
    · simp [isHeavyAtom, hH']
    · have hq : a.id ∉ connectedHydrogenIds aid m :=
        heavy_id_not_connectedHydrogenId hnodup ha hH' aid
      have hq' : a.id ∉ (getConnectedHydrogens aid m).map (·.id) := by
        rw [mem_getConnectedHydrogens_ids]
        exact hq
      simp [isHeavyAtom, hH', hq']

/-- A bond of `m` whose endpoints both name non-hydrogen atoms of `m` has no
endpoint in any connected-hydrogen set (with duplicate-free ids). -/
theorem heavyEnds_not_stripped {m : Molecule} (hnodup : (m.atoms.map (·.id)).Nodup)
    {b : Bond} (hE : heavyEnds m b = true) (aid : Nat) :
    b.sourceAtomId ∉ connectedHydrogenIds aid m
      ∧ b.targetAtomId ∉ connectedHydrogenIds aid m := by
  unfold heavyEnds at hE
  rw [Bool.and_eq_true, List.any_eq_true, List.any_eq_true] at hE
  obtain ⟨⟨aS, hasm, hasb⟩, ⟨aT, hatm, hatb⟩⟩ := hE
  rw [Bool.and_eq_true, beq_iff_eq] at hasb hatb
  constructor
  · rw [← hasb.1]
    exact heavy_id_not_connectedHydrogenId hnodup hasm
      (by simpa [isHeavyAtom] using hasb.2) aid
  · rw [← hatb.1]
    exact heavy_id_not_connectedHydrogenId hnodup hatm
      (by simpa [isHeavyAtom] using hatb.2) aid

/-- A pass preserves the list of bonds whose endpoints are both non-hydrogen
atoms of `m` (with duplicate-free ids and all ids below the counter). -/
theorem bondTypeChangePass_heavy_bonds (aid : Nat) (m : Molecule) (f : Nat)
    (hnodup : (m.atoms.map (·.id)).Nodup) (hbound : ∀ a ∈ m.atoms, a.id < f) :
    (bondTypeChangePass aid m f).1.bonds.filter (heavyEnds m)
      = m.bonds.filter (heavyEnds m) := by
  rcases bondTypeChangePass_cases aid m f with ⟨heq, -⟩ | ⟨a', hf, hH, heq⟩
  · rw [heq]
  · rw [heq]
    rw [pairFst, mkBonds, List.filter_append]
    have hfresh : ((List.range (passNeeded aid m a')).map
        (fun i => hydrogenBondAt a' f i)).filter (heavyEnds m) = [] := by
      rw [List.filter_eq_nil_iff]
      intro x hx
      simp only [List.mem_map, List.mem_range] at hx
      obtain ⟨i, -, rfl⟩ := hx
      unfold heavyEnds
      simp only [Bool.and_eq_true, List.any_eq_true, not_and]
      rintro - ⟨a₀, ha₀, hcond⟩
      have heid : a₀.id = f + 2 * i := by simpa using hcond.1
      have hlt := hbound a₀ ha₀
      omega
    rw [hfresh, List.append_nil]
    unfold stripHydrogensOf
    rw [List.filter_filter]
    apply List.filter_congr
    intro b hb
    by_cases hE : heavyEnds m b = true
    · have hns := heavyEnds_not_stripped hnodup hE aid
      have h1 : b.sourceAtomId ∉ (getConnectedHydrogens aid m).map (·.id) := by
        rw [mem_getConnectedHydrogens_ids]
        exact hns.1
      have h2 : b.targetAtomId ∉ (getConnectedHydrogens aid m).map (·.id) := by
        rw [mem_getConnectedHydrogens_ids]
        exact hns.2
      simp [hE, h1, h2]
    · have hE' : heavyEnds m b = false := by
        simpa using hE
      simp [hE']

/-- Two molecules with the same non-hydrogen atom lists classify bond
endpoints identically. -/
theorem heavyEnds_congr {m₁ m₂ : Molecule}
    (hfilter : m₁.atoms.filter isHeavyAtom = m₂.atoms.filter isHeavyAtom) (b : Bond) :
    heavyEnds m₁ b = heavyEnds m₂ b := by
  have key : ∀ (l : List Atom) (x : Nat),
      l.any (fun a => a.id == x && isHeavyAtom a)
        = (l.filter isHeavyAtom).any (fun a => a.id == x) := by
    intro l x
    induction l with
    | nil => rfl
    | cons a l ih =>
      rw [List.any_cons, List.filter_cons]
      by_cases hA : isHeavyAtom a = true
      · rw [if_pos hA, List.any_cons, ih, hA, Bool.and_true]
      · have hA' : isHeavyAtom a = false := by
          simpa using hA
        rw [if_neg hA, hA', Bool.and_false, Bool.false_or, ih]
  unfold heavyEnds
  rw [key, key, key m₂.atoms, key m₂.atoms, hfilter]

/-- Every atom of a pass result is an input atom or a hydrogen. -/
theorem bondTypeChangePass_atoms_subset (aid : Nat) (m : Molecule) (f : Nat) :
    ∀ a ∈ (bondTypeChangePass aid m f).1.atoms, a ∈ m.atoms ∨ a.element = .H := by
  intro a ha
  rcases bondTypeChangePass_cases aid m f with ⟨heq, -⟩ | ⟨a', hf, hH, heq⟩
  · rw [heq] at ha
    exact Or.inl ha
  · rw [heq] at ha
    rcases List.mem_append.mp ha with h1 | h2
    · exact Or.inl ((mem_stripHydrogensOf_atoms aid m a).mp h1).1
    · simp only [List.mem_map, List.mem_range] at h2
      obtain ⟨i, -, rfl⟩ := h2
      exact Or.inr rfl

/-- An atom of a pass result whose id predates the counter is an input
atom. -/
theorem bondTypeChangePass_atom_old (aid : Nat) (m : Molecule) (f : Nat) :
    ∀ a ∈ (bondTypeChangePass aid m f).1.atoms, a.id < f → a ∈ m.atoms := by
  intro a ha hlt
  rcases bondTypeChangePass_cases aid m f with ⟨heq, -⟩ | ⟨a', hf, hH, heq⟩
  · rw [heq] at ha
    exact ha
  · rw [heq] at ha
    rcases List.mem_append.mp ha with h1 | h2
    · exact ((mem_stripHydrogensOf_atoms aid m a).mp h1).1
    · simp only [List.mem_map, List.mem_range] at h2
      obtain ⟨i, -, rfl⟩ := h2
      have : (hydrogenAtomAt a' f i ((i : ℝ)
          * (2 * π / (max (passNeeded aid m a') 3 : Nat)))).id = f + 2 * i := rfl
      omega

/-- A bond of `m` missing from a pass result had an endpoint in the
connected-hydrogen set. -/
theorem bondTypeChangePass_removed_bond (aid : Nat) (m : Molecule) (f : Nat) {b : Bond}
    (hb : b ∈ m.bonds) (hnot : b ∉ (bondTypeChangePass aid m f).1.bonds) :
    b.sourceAtomId ∈ connectedHydrogenIds aid m
      ∨ b.targetAtomId ∈ connectedHydrogenIds aid m := by
  rcases bondTypeChangePass_cases aid m f with ⟨heq, -⟩ | ⟨a', hf, hH, heq⟩
  · rw [heq] at hnot
    exact absurd hb hnot
  · rw [heq] at hnot
    by_contra hno
    push_neg at hno
    exact hnot (List.mem_append.mpr (Or.inl
      ((mem_stripHydrogensOf_bonds aid m b).mpr ⟨hb, hno.1, hno.2⟩)))

/-- A bond of a pass result is an input bond, or a fresh bond whose target is
a hydrogen atom present in the result. -/
theorem bondTypeChangePass_new_bond (aid : Nat) (m : Molecule) (f : Nat) {b : Bond}
    (hb : b ∈ (bondTypeChangePass aid m f).1.bonds) :
    b ∈ m.bonds
      ∨ ∃ a ∈ (bondTypeChangePass aid m f).1.atoms,
          a.element = .H ∧ a.id = b.targetAtomId := by
  rcases bondTypeChangePass_cases aid m f with ⟨heq, -⟩ | ⟨a', hf, hH, heq⟩
  · rw [heq] at hb
    exact Or.inl hb
  · rw [heq] at hb ⊢
    rcases List.mem_append.mp hb with h1 | h2
    · exact Or.inl ((mem_stripHydrogensOf_bonds aid m b).mp h1).1
    · simp only [List.mem_map, List.mem_range] at h2
      obtain ⟨i, hi, rfl⟩ := h2
      refine Or.inr ⟨hydrogenAtomAt a' f i
        ((i : ℝ) * (2 * π / (max (passNeeded aid m a') 3 : Nat))), ?_, rfl, rfl⟩
      exact List.mem_append.mpr (Or.inr (List.mem_map.mpr ⟨i, List.mem_range.mpr hi, rfl⟩))

/-- C10 counterexample: with duplicate atom ids the claim fails — in
`shadowedCarbon`, stripping hydrogen id 1 (a connected hydrogen of carbon 0)
also deletes the non-hydrogen atom that shares id 1, so the non-hydrogen atom
list is not preserved. -/
theorem claim_C10_counterexample :
    (updateHydrogensAfterBondTypeChange 0 99 shadowedCarbon).atoms.filter isHeavyAtom
      ≠ shadowedCarbon.atoms.filter isHeavyAtom := by
  intro h
  have h1 : ((updateHydrogensAfterBondTypeChange 0 99 shadowedCarbon).atoms.filter
      isHeavyAtom).length = 1 := rfl
  have h2 : (shadowedCarbon.atoms.filter isHeavyAtom).length = 2 := rfl
  rw [h, h2] at h1
  cases h1

/-- C10 (amended): on molecules with duplicate-free atom ids,
`updateHydrogensAfterBondTypeChange` preserves, unchanged and in their
original relative order, every non-hydrogen atom and every bond both of whose
endpoints are non-hydrogen atoms; the only atoms removed or added are
hydrogens, and the only bonds removed or added are incident to a hydrogen
atom (of the input for removals, of the result for additions). -/
theorem claim_C10_amended (m : Molecule) (sId tId : Nat)
    (hnodup : (m.atoms.map (·.id)).Nodup) :
    (updateHydrogensAfterBondTypeChange sId tId m).atoms.filter isHeavyAtom
        = m.atoms.filter isHeavyAtom
      ∧ (updateHydrogensAfterBondTypeChange sId tId m).bonds.filter (heavyEnds m)
        = m.bonds.filter (heavyEnds m)
      ∧ (∀ a ∈ (updateHydrogensAfterBondTypeChange sId tId m).atoms,
          a ∉ m.atoms → a.element = .H)
      ∧ (∀ a ∈ m.atoms,
          a ∉ (updateHydrogensAfterBondTypeChange sId tId m).atoms → a.element = .H)
      ∧ (∀ b ∈ (updateHydrogensAfterBondTypeChange sId tId m).bonds, b ∉ m.bonds →
          ∃ a ∈ (updateHydrogensAfterBondTypeChange sId tId m).atoms,
            a.element = .H ∧ (a.id = b.sourceAtomId ∨ a.id = b.targetAtomId))
      ∧ (∀ b ∈ m.bonds, b ∉ (updateHydrogensAfterBondTypeChange sId tId m).bonds →
          ∃ a ∈ m.atoms,
            a.element = .H ∧ (a.id = b.sourceAtomId ∨ a.id = b.targetAtomId)) := by
  have hb0 : ∀ a ∈ m.atoms, a.id < nextFresh m := fun a ha => atom_id_lt_nextFresh m a ha
  have hnodup1 := bondTypeChangePass_nodup sId m (nextFresh m) hnodup hb0
  have hbound1 := bondTypeChangePass_atom_id_lt sId m (nextFresh m) hb0
  have hheavy1 := bondTypeChangePass_heavy_atoms sId m (nextFresh m) hnodup
  have hheavy2 := bondTypeChangePass_heavy_atoms tId
    (bondTypeChangePass sId m (nextFresh m)).1 (bondTypeChangePass sId m (nextFresh m)).2
    hnodup1
  simp only [updateHydrogensAfterBondTypeChange]
  refine ⟨?_, ?_, ?_, ?_, ?_, ?_⟩
  · rw [hheavy2, hheavy1]
  · have hbb2 := bondTypeChangePass_heavy_bonds tId
      (bondTypeChangePass sId m (nextFresh m)).1 (bondTypeChangePass sId m (nextFresh m)).2
      hnodup1 hbound1
    have hbb1 := bondTypeChangePass_heavy_bonds sId m (nextFresh m) hnodup hb0
    have hcong : ∀ b, heavyEnds (bondTypeChangePass sId m (nextFresh m)).1 b = heavyEnds m b :=
      fun b => heavyEnds_congr hheavy1 b
    calc (bondTypeChangePass tId (bondTypeChangePass sId m (nextFresh m)).1
            (bondTypeChangePass sId m (nextFresh m)).2).1.bonds.filter (heavyEnds m)
        = (bondTypeChangePass tId (bondTypeChangePass sId m (nextFresh m)).1
            (bondTypeChangePass sId m (nextFresh m)).2).1.bonds.filter
            (heavyEnds (bondTypeChangePass sId m (nextFresh m)).1) := by
          apply List.filter_congr
          intro b _
          rw [hcong]
      _ = (bondTypeChangePass sId m (nextFresh m)).1.bonds.filter
            (heavyEnds (bondTypeChangePass sId m (nextFresh m)).1) := hbb2
      _ = (bondTypeChangePass sId m (nextFresh m)).1.bonds.filter (heavyEnds m) := by
          apply List.filter_congr
          intro b _
          rw [hcong]
      _ = m.bonds.filter (heavyEnds m) := hbb1
  · intro a ha hnot
    rcases bondTypeChangePass_atoms_subset tId _ _ a ha with h1 | h1
    · rcases bondTypeChangePass_atoms_subset sId _ _ a h1 with h2 | h2
      · exact absurd h2 hnot
      · exact h2
    · exact h1
  · intro a ha hnot
    by_contra hne
    have h1 : a ∈ (bondTypeChangePass sId m (nextFresh m)).1.atoms :=
      bondTypeChangePass_atom_surv sId m (nextFresh m) ha
        (heavy_id_not_connectedHydrogenId hnodup ha hne sId)
    have h2 : a ∈ (bondTypeChangePass tId (bondTypeChangePass sId m (nextFresh m)).1
        (bondTypeChangePass sId m (nextFresh m)).2).1.atoms :=
      bondTypeChangePass_atom_surv tId _ _ h1
        (heavy_id_not_connectedHydrogenId hnodup1 h1 hne tId)
    exact hnot h2
  · intro b hb hbnot
    rcases bondTypeChangePass_new_bond tId _ _ hb with hbM1 | ⟨a', ha'mem, ha'H, ha'id⟩
    · rcases bondTypeChangePass_new_bond sId m (nextFresh m) hbM1 with hbm | ⟨h', h'M1, h'H, h'id⟩
      · exact absurd hbm hbnot
      · refine ⟨h', ?_, h'H, Or.inr h'id⟩
        rcases bondTypeChangePass_bond_origin tId
            (bondTypeChangePass sId m (nextFresh m)).1
            (bondTypeChangePass sId m (nextFresh m)).2 hb with
          ⟨-, hcert⟩ | ⟨a₂, -, -, -, htgt⟩
        · rcases hcert with hid | ⟨-, htgt'⟩
          · rw [hid]
            exact h'M1
          · exact bondTypeChangePass_atom_surv tId _ _ h'M1 (by rw [h'id]; exact htgt')
        · have := hbound1 h' h'M1
          omega
    · exact ⟨a', ha'mem, ha'H, Or.inr ha'id⟩
  · intro b hb hbnot
    by_cases hbM1 : b ∈ (bondTypeChangePass sId m (nextFresh m)).1.bonds
    · rcases bondTypeChangePass_removed_bond tId
          (bondTypeChangePass sId m (nextFresh m)).1
          (bondTypeChangePass sId m (nextFresh m)).2 hbM1 hbnot with hx | hx
      · obtain ⟨a', hfa', ha'H⟩ := find?_of_mem_connectedHydrogenIds _ _ _ hx
        have ha'id := found_id_eq_of_pred hfa'
        have ha'M1 := List.mem_of_find?_eq_some hfa'
        have ha'm : a' ∈ m.atoms := by
          apply bondTypeChangePass_atom_old sId m (nextFresh m) a' ha'M1
          rw [ha'id]
          exact bond_source_lt_nextFresh m b hb
        exact ⟨a', ha'm, ha'H, Or.inl ha'id⟩
      · obtain ⟨a', hfa', ha'H⟩ := find?_of_mem_connectedHydrogenIds _ _ _ hx
        have ha'id := found_id_eq_of_pred hfa'
        have ha'M1 := List.mem_of_find?_eq_some hfa'
        have ha'm : a' ∈ m.atoms := by
          apply bondTypeChangePass_atom_old sId m (nextFresh m) a' ha'M1
          rw [ha'id]
          exact bond_target_lt_nextFresh m b hb
        exact ⟨a', ha'm, ha'H, Or.inr ha'id⟩
    · rcases bondTypeChangePass_removed_bond sId m (nextFresh m) hb hbM1 with hx | hx
      · obtain ⟨a', hfa', ha'H⟩ := find?_of_mem_connectedHydrogenIds _ _ _ hx
        exact ⟨a', List.mem_of_find?_eq_some hfa', ha'H, Or.inl (found_id_eq_of_pred hfa')⟩
      · obtain ⟨a', hfa', ha'H⟩ := find?_of_mem_connectedHydrogenIds _ _ _ hx
        exact ⟨a', List.mem_of_find?_eq_some hfa', ha'H, Or.inr (found_id_eq_of_pred hfa')⟩

/-- C10 witness: the amended theorem applied to the crowded carbon, whose
atom ids are duplicate-free. -/
theorem claim_C10_witness :
    (updateHydrogensAfterBondTypeChange 0 6 crowdedCarbon).atoms.filter isHeavyAtom
        = crowdedCarbon.atoms.filter isHeavyAtom
      ∧ (updateHydrogensAfterBondTypeChange 0 6 crowdedCarbon).bonds.filter
            (heavyEnds crowdedCarbon)
        = crowdedCarbon.bonds.filter (heavyEnds crowdedCarbon)
      ∧ (∀ a ∈ (updateHydrogensAfterBondTypeChange 0 6 crowdedCarbon).atoms,
          a ∉ crowdedCarbon.atoms → a.element = .H)
      ∧ (∀ a ∈ crowdedCarbon.atoms,
          a ∉ (updateHydrogensAfterBondTypeChange 0 6 crowdedCarbon).atoms → a.element = .H)
      ∧ (∀ b ∈ (updateHydrogensAfterBondTypeChange 0 6 crowdedCarbon).bonds,
          b ∉ crowdedCarbon.bonds →
          ∃ a ∈ (updateHydrogensAfterBondTypeChange 0 6 crowdedCarbon).atoms,
            a.element = .H ∧ (a.id = b.sourceAtomId ∨ a.id = b.targetAtomId))
      ∧ (∀ b ∈ crowdedCarbon.bonds,
          b ∉ (updateHydrogensAfterBondTypeChange 0 6 crowdedCarbon).bonds →
          ∃ a ∈ crowdedCarbon.atoms,
            a.element = .H ∧ (a.id = b.sourceAtomId ∨ a.id = b.targetAtomId)) :=
  claim_C10_amended crowdedCarbon 0 6 (by decide)

/-! ### Claim C4: idempotence of the bond-type-change reconciler -/

/-- A list of bonds none of which touches `atomId` contributes nothing to its
bond count. -/
theorem getAtomBondCount_eq_zero (atomId : Nat) (l : List Bond)
    (h : ∀ b ∈ l, ¬incident atomId b) : getAtomBondCount atomId l = 0 := by
  induction l with
  | nil => rfl
  | cons b l ih =>
    rw [getAtomBondCount_cons, if_neg (h b (by simp)), Nat.zero_add]
    exact ih fun x hx => h x (by simp [hx])

/-- Two filterings that agree on every bond touching `atomId` give the same
bond count for `atomId`. -/
theorem getAtomBondCount_filter_congr (atomId : Nat) (l : List Bond) (p q : Bond → Bool)
    (h : ∀ b ∈ l, incident atomId b → p b = q b) :
    getAtomBondCount atomId (l.filter p) = getAtomBondCount atomId (l.filter q) := by
  induction l with
  | nil => rfl
  | cons b l ih =>
    have ih' := ih fun x hx hinc => h x (by simp [hx]) hinc
    by_cases hinc : incident atomId b
    · rw [List.filter_cons, List.filter_cons, h b (by simp) hinc]
      by_cases hq : q b
      · rw [if_pos hq, if_pos hq, getAtomBondCount_cons, getAtomBondCount_cons, ih']
      · rw [if_neg hq, if_neg hq]
        exact ih'
    · rw [List.filter_cons, List.filter_cons]
      by_cases hp : p b
      · rw [if_pos hp, getAtomBondCount_cons, if_neg hinc]
        by_cases hq : q b
        · rw [if_pos hq, getAtomBondCount_cons, if_neg hinc, ih']
        · rw [if_neg hq, ih']
          omega
      · rw [if_neg hp]
        by_cases hq : q b
        · rw [if_pos hq, getAtomBondCount_cons, if_neg hinc, ih']
          omega
        · rw [if_neg hq]
          exact ih'

/-- Membership-equivalent id lists give the same `contains` answers. -/
theorem contains_eq_of_mem_iff {l₁ l₂ : List Nat} (h : ∀ z, z ∈ l₁ ↔ z ∈ l₂) (z : Nat) :
    l₁.contains z = l₂.contains z := by
  by_cases hz : z ∈ l₂
  · have h1 : l₁.contains z = true := by
      simpa using (h z).mpr hz
    have h2 : l₂.contains z = true := by
      simpa using hz
    rw [h1, h2]
  · have h1 : l₁.contains z = false := by
      have : z ∉ l₁ := fun hx => hz ((h z).mp hx)
      simpa using this
    have h2 : l₂.contains z = false := by
      simpa using hz
    rw [h1, h2]

/-- The by-id search ignores a filtering that never removes an atom of the
searched id. -/
theorem find?_id_filter_stable (l : List Atom) (S : List Nat) (x : Nat)
    (hx : x ∉ S) :
    (l.filter (fun a => !(S.contains a.id))).find? (fun y => y.id == x)
      = l.find? (fun y => y.id == x) := by
  induction l with
  | nil => rfl
  | cons a l ih =>
    by_cases hpa : (a.id == x) = true
    · have haid : a.id = x := by simpa using hpa
      have hq : (!(S.contains a.id)) = true := by
        rw [haid]
        simpa using hx
      rw [List.filter_cons, if_pos hq]
      simp only [List.find?_cons, hpa]
    · have hpa' : (a.id == x) = false := by
        simpa using hpa
      have e2 : List.find? (fun y => y.id == x) (a :: l)
          = List.find? (fun y => y.id == x) l := by
        simp only [List.find?_cons, hpa']
      rw [List.filter_cons]
      by_cases hq : (!(S.contains a.id)) = true
      · have e1 : List.find? (fun y => y.id == x)
            (a :: l.filter (fun a => !(S.contains a.id)))
            = List.find? (fun y => y.id == x) (l.filter (fun a => !(S.contains a.id))) := by
          simp only [List.find?_cons, hpa']
        rw [if_pos hq, e1, e2]
        exact ih
      · rw [if_neg hq, e2]
        exact ih

/-- First-match over an indexed family: if all earlier indices fail and `i`
matches, the search over `map g (range n)` returns `g i`. -/
theorem find?_map_range (g : Nat → Atom) (p : Atom → Bool) (n i : Nat) (hi : i < n)
    (hne : ∀ j, j < i → ¬p (g j) = true) (hp : p (g i) = true) :
    ((List.range n).map g).find? p = some (g i) := by
  induction n with
  | zero => omega
  | succ n ih =>
    rw [List.range_succ, List.map_append, List.find?_append]
    by_cases hin : i < n
    · rw [ih hin]
      rfl
    · have hieq : i = n := by omega
      have hleft : ((List.range n).map g).find? p = none := by
        rw [List.find?_eq_none]
        intro x hx
        simp only [List.mem_map, List.mem_range] at hx
        obtain ⟨j, hj, rfl⟩ := hx
        exact hne j (by omega)
      rw [hleft, hieq]
      simp only [hieq] at hp
      simp [hp]

/-- Bond endpoints of a pass result stay below the returned counter. -/
theorem bondTypeChangePass_bond_id_lt (aid : Nat) (m : Molecule) (f : Nat)
    (hba : ∀ at' ∈ m.atoms, at'.id < f)
    (hbb : ∀ b ∈ m.bonds, b.sourceAtomId < f ∧ b.targetAtomId < f) :
    ∀ b ∈ (bondTypeChangePass aid m f).1.bonds,
      b.sourceAtomId < (bondTypeChangePass aid m f).2
        ∧ b.targetAtomId < (bondTypeChangePass aid m f).2 := by
  intro b hb
  rcases bondTypeChangePass_cases aid m f with ⟨heq, -⟩ | ⟨a, hf, hH, heq⟩
  · rw [heq] at hb ⊢
    exact hbb b hb
  · rw [heq] at hb ⊢
    rcases List.mem_append.mp hb with h1 | h2
    · have hm := ((mem_stripHydrogensOf_bonds aid m b).mp h1).1
      have := hbb b hm
      show _ < f + 2 * passNeeded aid m a ∧ _ < f + 2 * passNeeded aid m a
      omega
    · simp only [List.mem_map, List.mem_range] at h2
      obtain ⟨i, hi, rfl⟩ := h2
      have hsrc : (hydrogenBondAt a f i).sourceAtomId = a.id := rfl
      have htgt : (hydrogenBondAt a f i).targetAtomId = f + 2 * i := rfl
      have := hba a (List.mem_of_find?_eq_some hf)
      show (hydrogenBondAt a f i).sourceAtomId < f + 2 * passNeeded aid m a
        ∧ (hydrogenBondAt a f i).targetAtomId < f + 2 * passNeeded aid m a
      rw [hsrc, htgt]
      omega

/-- The component equations of a processed pass (found non-hydrogen atom). -/
theorem bondTypeChangePass_processed (aid : Nat) (m : Molecule) (f : Nat) {a : Atom}
    (hf : m.atoms.find? (fun x => x.id == aid) = some a) (hH : ¬a.element = .H) :
    (bondTypeChangePass aid m f).1.atoms
        = (stripHydrogensOf aid m).atoms
          ++ (List.range (passNeeded aid m a)).map
              (fun i => hydrogenAtomAt a f i
                ((i : ℝ) * (2 * π / (max (passNeeded aid m a) 3 : Nat))))
      ∧ (bondTypeChangePass aid m f).1.bonds
        = (stripHydrogensOf aid m).bonds
          ++ (List.range (passNeeded aid m a)).map (fun i => hydrogenBondAt a f i)
      ∧ (bondTypeChangePass aid m f).2 = f + 2 * passNeeded aid m a := by
  rcases bondTypeChangePass_cases aid m f with ⟨heq, hreason⟩ | ⟨a', hf', hH', heq⟩
  · exfalso
    rcases hreason with hnone | ⟨h, hfh, hhH⟩
    · rw [hf] at hnone
      cases hnone
    · rw [hf] at hfh
      cases hfh
      exact hH hhH
  · rw [hf] at hf'
    cases hf'
    refine ⟨?_, ?_, ?_⟩ <;> rw [heq]

/-- Every connected-hydrogen id is a bond endpoint, hence bounded. -/
theorem connIds_lt (uid : Nat) (m : Molecule) (f : Nat)
    (hbb : ∀ b ∈ m.bonds, b.sourceAtomId < f ∧ b.targetAtomId < f) :
    ∀ x ∈ connectedHydrogenIds uid m, x < f := by
  intro x hx
  obtain ⟨b, hbm, hconn, -⟩ := (mem_connectedHydrogenIds uid m x).mp hx
  have := hbb b hbm
  rcases hconn with ⟨-, rfl⟩ | ⟨-, -, rfl⟩ <;> omega

/-- `getRequiredHydrogens` only depends on the atom's bond count. -/
theorem getRequiredHydrogens_congr (atom : Atom) (l₁ l₂ : List Bond)
    (h : getAtomBondCount atom.id l₁ = getAtomBondCount atom.id l₂) :
    getRequiredHydrogens atom l₁ = getRequiredHydrogens atom l₂ := by
  simp only [getRequiredHydrogens, h]

/-- In a processed pass result, the by-id search for the `i`-th fresh id
returns the `i`-th fresh hydrogen. -/
theorem processed_find?_fresh (aid : Nat) (m : Molecule) (f : Nat) {a : Atom}
    (hf : m.atoms.find? (fun x => x.id == aid) = some a) (hH : ¬a.element = .H)
    (hba : ∀ x ∈ m.atoms, x.id < f) (i : Nat) (hi : i < passNeeded aid m a) :
    (bondTypeChangePass aid m f).1.atoms.find? (fun y => y.id == f + 2 * i)
      = some (hydrogenAtomAt a f i
          ((i : ℝ) * (2 * π / (max (passNeeded aid m a) 3 : Nat)))) := by
  obtain ⟨hA, -, -⟩ := bondTypeChangePass_processed aid m f hf hH
  rw [hA, List.find?_append]
  have hleft : (stripHydrogensOf aid m).atoms.find? (fun y => y.id == f + 2 * i) = none := by
    rw [List.find?_eq_none]
    intro x hx
    have hxm := ((mem_stripHydrogensOf_atoms aid m x).mp hx).1
    have := hba x hxm
    simp only [beq_iff_eq]
    omega
  rw [hleft]
  have hright := find?_map_range
    (fun j => hydrogenAtomAt a f j ((j : ℝ) * (2 * π / (max (passNeeded aid m a) 3 : Nat))))
    (fun y => y.id == f + 2 * i) (passNeeded aid m a) i hi
    (by
      intro j hj
      show ¬(f + 2 * j == f + 2 * i) = true
      simp only [beq_iff_eq]
      omega)
    (by
      show (f + 2 * i == f + 2 * i) = true
      simp)
  rw [hright]
  rfl

/-- In a processed pass result, the by-id search for a low id outside the
stripped set agrees with the input molecule. -/
theorem processed_find?_low (aid : Nat) (m : Molecule) (f : Nat) {a : Atom}
    (hf : m.atoms.find? (fun x => x.id == aid) = some a) (hH : ¬a.element = .H)
    (x : Nat) (hxf : x < f) (hx : x ∉ connectedHydrogenIds aid m) :
    (bondTypeChangePass aid m f).1.atoms.find? (fun y => y.id == x)
      = m.atoms.find? (fun y => y.id == x) := by
  obtain ⟨hA, -, -⟩ := bondTypeChangePass_processed aid m f hf hH
  rw [hA, List.find?_append]
  have hstrip : (stripHydrogensOf aid m).atoms.find? (fun y => y.id == x)
      = m.atoms.find? (fun y => y.id == x) := by
    unfold stripHydrogensOf
    apply find?_id_filter_stable
    rw [mem_getConnectedHydrogens_ids]
    exact hx
  rw [hstrip]
  cases hm : m.atoms.find? (fun y => y.id == x) with
  | some v => rfl
  | none =>
    have hfreshnone : ((List.range (passNeeded aid m a)).map
        (fun i => hydrogenAtomAt a f i
          ((i : ℝ) * (2 * π / (max (passNeeded aid m a) 3 : Nat))))).find?
        (fun y => y.id == x) = none := by
      rw [List.find?_eq_none]
      intro y hy
      simp only [List.mem_map, List.mem_range] at hy
      obtain ⟨j, -, rfl⟩ := hy
      show ¬(f + 2 * j == x) = true
      simp only [beq_iff_eq]
      omega
    rw [hfreshnone]
    rfl

/-- In a processed pass result, the by-id search for a low id inside the
stripped set fails. -/
theorem processed_find?_stripped (aid : Nat) (m : Molecule) (f : Nat) {a : Atom}
    (hf : m.atoms.find? (fun x => x.id == aid) = some a) (hH : ¬a.element = .H)
    (x : Nat) (hxf : x < f) (hx : x ∈ connectedHydrogenIds aid m) :
    (bondTypeChangePass aid m f).1.atoms.find? (fun y => y.id == x) = none := by
  obtain ⟨hA, -, -⟩ := bondTypeChangePass_processed aid m f hf hH
  rw [hA, List.find?_append]
  have hstrip : (stripHydrogensOf aid m).atoms.find? (fun y => y.id == x) = none := by
    rw [List.find?_eq_none]
    intro y hy
    have hnot := ((mem_stripHydrogensOf_atoms aid m y).mp hy).2
    simp only [beq_iff_eq]
    intro he
    exact hnot (he ▸ hx)
  have hfresh : ((List.range (passNeeded aid m a)).map
      (fun i => hydrogenAtomAt a f i
        ((i : ℝ) * (2 * π / (max (passNeeded aid m a) 3 : Nat))))).find?
      (fun y => y.id == x) = none := by
    rw [List.find?_eq_none]
    intro y hy
    simp only [List.mem_map, List.mem_range] at hy
    obtain ⟨j, -, rfl⟩ := hy
    show ¬(f + 2 * j == x) = true
    simp only [beq_iff_eq]
    omega
  rw [hstrip, hfresh]
  rfl

/-- In a processed pass result, the connected-hydrogen ids of the processed
atom are exactly the fresh hydrogen ids. -/
theorem processed_connIds_self (aid : Nat) (m : Molecule) (f : Nat) {a : Atom}
    (hf : m.atoms.find? (fun x => x.id == aid) = some a) (hH : ¬a.element = .H)
    (hba : ∀ x ∈ m.atoms, x.id < f)
    (hbb : ∀ b ∈ m.bonds, b.sourceAtomId < f ∧ b.targetAtomId < f) :
    ∀ x, x ∈ connectedHydrogenIds aid (bondTypeChangePass aid m f).1
      ↔ ∃ i, i < passNeeded aid m a ∧ x = f + 2 * i := by
  obtain ⟨hA, hB, -⟩ := bondTypeChangePass_processed aid m f hf hH
  intro x
  rw [mem_connectedHydrogenIds]
  constructor
  · rintro ⟨b, hb, hcon⟩
    rw [hB] at hb
    rcases List.mem_append.mp hb with hbs | hbf
    · exfalso
      obtain ⟨hbm, hs, ht⟩ := (mem_stripHydrogensOf_bonds aid m b).mp hbs
      obtain ⟨hconn, a', hfa', ha'H⟩ := hcon
      rcases hconn with ⟨hsrc, hxeq⟩ | ⟨hnsrc, htgt, hxeq⟩
      · have hxf : x < f := by
          have := hbb b hbm
          omega
        rw [processed_find?_low aid m f hf hH x hxf (hxeq ▸ ht)] at hfa'
        exact (hxeq ▸ ht) ((mem_connectedHydrogenIds aid m x).mpr
          ⟨b, hbm, Or.inl ⟨hsrc, hxeq⟩, a', hfa', ha'H⟩)
      · have hxf : x < f := by
          have := hbb b hbm
          omega
        rw [processed_find?_low aid m f hf hH x hxf (hxeq ▸ hs)] at hfa'
        exact (hxeq ▸ hs) ((mem_connectedHydrogenIds aid m x).mpr
          ⟨b, hbm, Or.inr ⟨hnsrc, htgt, hxeq⟩, a', hfa', ha'H⟩)
    · simp only [List.mem_map, List.mem_range] at hbf
      obtain ⟨i, hi, rfl⟩ := hbf
      obtain ⟨hconn, -⟩ := hcon
      rcases hconn with ⟨-, hxeq⟩ | ⟨hnsrc, -, -⟩
      · exact ⟨i, hi, hxeq⟩
      · exact absurd (found_id_eq hf) hnsrc
  · rintro ⟨i, hi, rfl⟩
    refine ⟨hydrogenBondAt a f i, ?_, ?_⟩
    · rw [hB]
      exact List.mem_append.mpr (Or.inr (List.mem_map.mpr ⟨i, List.mem_range.mpr hi, rfl⟩))
    · exact ⟨Or.inl ⟨found_id_eq hf, rfl⟩,
        hydrogenAtomAt a f i ((i : ℝ) * (2 * π / (max (passNeeded aid m a) 3 : Nat))),
        processed_find?_fresh aid m f hf hH hba i hi, rfl⟩

/-- In a processed pass result, the processed atom's hydrogen count is the
re-added number. -/
theorem processed_countH_self (aid : Nat) (m : Molecule) (f : Nat) {a : Atom}
    (hf : m.atoms.find? (fun x => x.id == aid) = some a) (hH : ¬a.element = .H)
    (hba : ∀ x ∈ m.atoms, x.id < f)
    (hbb : ∀ b ∈ m.bonds, b.sourceAtomId < f ∧ b.targetAtomId < f) :
    countHydrogens aid (bondTypeChangePass aid m f).1 = passNeeded aid m a := by
  obtain ⟨hA, -, -⟩ := bondTypeChangePass_processed aid m f hf hH
  have hiff := processed_connIds_self aid m f hf hH hba hbb
  unfold countHydrogens getConnectedHydrogens
  rw [hA, List.filter_append, List.length_append]
  have h1 : (stripHydrogensOf aid m).atoms.filter
      (fun y => (connectedHydrogenIds aid (bondTypeChangePass aid m f).1).contains y.id)
      = [] := by
    rw [List.filter_eq_nil_iff]
    intro y hy
    have hyb : y.id < f := hba y ((mem_stripHydrogensOf_atoms aid m y).mp hy).1
    simp only [List.contains_eq_any_beq, List.any_eq_true, beq_iff_eq, not_exists, not_and]
    intro z hz hzy
    obtain ⟨i, -, rfl⟩ := (hiff z).mp hz
    omega
  have h2 : ((List.range (passNeeded aid m a)).map
      (fun i => hydrogenAtomAt a f i
        ((i : ℝ) * (2 * π / (max (passNeeded aid m a) 3 : Nat))))).filter
      (fun y => (connectedHydrogenIds aid (bondTypeChangePass aid m f).1).contains y.id)
      = (List.range (passNeeded aid m a)).map
          (fun i => hydrogenAtomAt a f i
            ((i : ℝ) * (2 * π / (max (passNeeded aid m a) 3 : Nat)))) := by
    rw [List.filter_eq_self]
    intro y hy
    simp only [List.mem_map, List.mem_range] at hy
    obtain ⟨i, hi, rfl⟩ := hy
    have : f + 2 * i ∈ connectedHydrogenIds aid (bondTypeChangePass aid m f).1 :=
      (hiff (f + 2 * i)).mpr ⟨i, hi, rfl⟩
    simpa using this
  rw [h1, h2, List.length_map, List.length_range, List.length_nil, Nat.zero_add]

/-- In a processed pass result, stripping the processed id again removes
exactly the fresh bonds, recovering the stripped bond list. -/
theorem processed_strip_bonds (aid : Nat) (m : Molecule) (f : Nat) {a : Atom}
    (hf : m.atoms.find? (fun x => x.id == aid) = some a) (hH : ¬a.element = .H)
    (hba : ∀ x ∈ m.atoms, x.id < f)
    (hbb : ∀ b ∈ m.bonds, b.sourceAtomId < f ∧ b.targetAtomId < f) :
    (stripHydrogensOf aid (bondTypeChangePass aid m f).1).bonds
      = (stripHydrogensOf aid m).bonds := by
  obtain ⟨-, hB, -⟩ := bondTypeChangePass_processed aid m f hf hH
  have hiff := processed_connIds_self aid m f hf hH hba hbb
  show ((bondTypeChangePass aid m f).1.bonds.filter _) = _
  rw [hB, List.filter_append]
  have h2 : ((List.range (passNeeded aid m a)).map
      (fun i => hydrogenBondAt a f i)).filter
      (fun b => !(((getConnectedHydrogens aid (bondTypeChangePass aid m f).1).map (·.id)).contains b.sourceAtomId)
        && !(((getConnectedHydrogens aid (bondTypeChangePass aid m f).1).map (·.id)).contains b.targetAtomId))
      = [] := by
    rw [List.filter_eq_nil_iff]
    intro b hb
    simp only [List.mem_map, List.mem_range] at hb
    obtain ⟨i, hi, rfl⟩ := hb
    have htin : f + 2 * i ∈ ((getConnectedHydrogens aid (bondTypeChangePass aid m f).1).map (·.id)) := by
      rw [mem_getConnectedHydrogens_ids]
      exact (hiff (f + 2 * i)).mpr ⟨i, hi, rfl⟩
    have : (hydrogenBondAt a f i).targetAtomId
        ∈ ((getConnectedHydrogens aid (bondTypeChangePass aid m f).1).map (·.id)) := htin
    simp [this]
  have h1 : ((stripHydrogensOf aid m).bonds).filter
      (fun b => !(((getConnectedHydrogens aid (bondTypeChangePass aid m f).1).map (·.id)).contains b.sourceAtomId)
        && !(((getConnectedHydrogens aid (bondTypeChangePass aid m f).1).map (·.id)).contains b.targetAtomId))
      = (stripHydrogensOf aid m).bonds := by
    rw [List.filter_eq_self]
    intro b hb
    have hbm := (mem_stripHydrogensOf_bonds aid m b).mp hb
    have hbnd := hbb b hbm.1
    have hs : b.sourceAtomId ∉ ((getConnectedHydrogens aid (bondTypeChangePass aid m f).1).map (·.id)) := by
      rw [mem_getConnectedHydrogens_ids]
      intro hin
      obtain ⟨i, -, hieq⟩ := (hiff b.sourceAtomId).mp hin
      omega
    have ht : b.targetAtomId ∉ ((getConnectedHydrogens aid (bondTypeChangePass aid m f).1).map (·.id)) := by
      rw [mem_getConnectedHydrogens_ids]
      intro hin
      obtain ⟨i, -, hieq⟩ := (hiff b.targetAtomId).mp hin
      omega
    simp [hs, ht]
  rw [h1, h2, List.append_nil]

/-- A processed pass leaves another atom's connected-hydrogen id set
unchanged, provided each of its members is witnessed by a bond surviving the
strip phase. -/
theorem processed_connIds_other (aid : Nat) (m : Molecule) (f : Nat) {a : Atom}
    (hf : m.atoms.find? (fun x => x.id == aid) = some a) (hH : ¬a.element = .H)
    (hbb : ∀ b ∈ m.bonds, b.sourceAtomId < f ∧ b.targetAtomId < f)
    (uid : Nat) (huidf : uid < f) (huidne : ¬uid = aid)
    (hkey : ∀ x ∈ connectedHydrogenIds uid m,
      ∃ b ∈ (stripHydrogensOf aid m).bonds, contributesHydrogen uid m b x) :
    ∀ x, x ∈ connectedHydrogenIds uid (bondTypeChangePass aid m f).1
      ↔ x ∈ connectedHydrogenIds uid m := by
  obtain ⟨hA, hB, -⟩ := bondTypeChangePass_processed aid m f hf hH
  intro x
  rw [mem_connectedHydrogenIds, mem_connectedHydrogenIds]
  constructor
  · rintro ⟨b, hb, hcon⟩
    rw [hB] at hb
    rcases List.mem_append.mp hb with hbs | hbf
    · obtain ⟨hbm, hs, ht⟩ := (mem_stripHydrogensOf_bonds aid m b).mp hbs
      obtain ⟨hconn, a', hfa', ha'H⟩ := hcon
      refine ⟨b, hbm, hconn, a', ?_, ha'H⟩
      rcases hconn with ⟨-, hxeq⟩ | ⟨-, -, hxeq⟩
      · have hxf : x < f := by
          have := hbb b hbm
          omega
        rw [← processed_find?_low aid m f hf hH x hxf (hxeq ▸ ht)]
        exact hfa'
      · have hxf : x < f := by
          have := hbb b hbm
          omega
        rw [← processed_find?_low aid m f hf hH x hxf (hxeq ▸ hs)]
        exact hfa'
    · exfalso
      simp only [List.mem_map, List.mem_range] at hbf
      obtain ⟨i, hi, rfl⟩ := hbf
      obtain ⟨hconn, -⟩ := hcon
      rcases hconn with ⟨hsrc, -⟩ | ⟨-, htgt, -⟩
      · refine absurd ?_ huidne
        have hai : a.id = uid := hsrc
        exact hai ▸ found_id_eq hf
      · have : f + 2 * i = uid := htgt
        omega
  · intro hx
    have hxmem : x ∈ connectedHydrogenIds uid m := (mem_connectedHydrogenIds uid m x).mpr hx
    obtain ⟨b, hbs, hcon⟩ := hkey x hxmem
    obtain ⟨hbm, hs, ht⟩ := (mem_stripHydrogensOf_bonds aid m b).mp hbs
    obtain ⟨hconn, a', hfa', ha'H⟩ := hcon
    refine ⟨b, ?_, hconn, a', ?_, ha'H⟩
    · rw [hB]
      exact List.mem_append.mpr (Or.inl hbs)
    · rcases hconn with ⟨-, hxeq⟩ | ⟨-, -, hxeq⟩
      · have hxf : x < f := by
          have := hbb b hbm
          omega
        rw [processed_find?_low aid m f hf hH x hxf (hxeq ▸ ht)]
        exact hfa'
      · have hxf : x < f := by
          have := hbb b hbm
          omega
        rw [processed_find?_low aid m f hf hH x hxf (hxeq ▸ hs)]
        exact hfa'

/-- A processed pass preserves another atom's hydrogen count, provided its
connected-hydrogen set is disjoint from the processed atom's and strip-stable. -/
theorem processed_countH_other (aid : Nat) (m : Molecule) (f : Nat) {a : Atom}
    (hf : m.atoms.find? (fun x => x.id == aid) = some a) (hH : ¬a.element = .H)
    (_hba : ∀ x ∈ m.atoms, x.id < f)
    (hbb : ∀ b ∈ m.bonds, b.sourceAtomId < f ∧ b.targetAtomId < f)
    (uid : Nat) (huidf : uid < f) (huidne : ¬uid = aid)
    (hkey : ∀ x ∈ connectedHydrogenIds uid m,
      ∃ b ∈ (stripHydrogensOf aid m).bonds, contributesHydrogen uid m b x)
    (hdisj : ∀ x ∈ connectedHydrogenIds uid m, x ∉ connectedHydrogenIds aid m) :
    countHydrogens uid (bondTypeChangePass aid m f).1 = countHydrogens uid m := by
  obtain ⟨hA, -, -⟩ := bondTypeChangePass_processed aid m f hf hH
  have hiff := processed_connIds_other aid m f hf hH hbb uid huidf huidne hkey
  have hcont : ∀ z, (connectedHydrogenIds uid (bondTypeChangePass aid m f).1).contains z
      = (connectedHydrogenIds uid m).contains z :=
    contains_eq_of_mem_iff hiff
  unfold countHydrogens getConnectedHydrogens
  rw [hA, List.filter_append, List.length_append]
  have h2 : ((List.range (passNeeded aid m a)).map
      (fun i => hydrogenAtomAt a f i
        ((i : ℝ) * (2 * π / (max (passNeeded aid m a) 3 : Nat))))).filter
      (fun y => (connectedHydrogenIds uid (bondTypeChangePass aid m f).1).contains y.id)
      = [] := by
    rw [List.filter_eq_nil_iff]
    intro y hy
    simp only [List.mem_map, List.mem_range] at hy
    obtain ⟨i, -, rfl⟩ := hy
    have hyid : (hydrogenAtomAt a f i
        ((i : ℝ) * (2 * π / (max (passNeeded aid m a) 3 : Nat)))).id = f + 2 * i := rfl
    rw [hcont]
    simp only [hyid, List.contains_eq_any_beq, List.any_eq_true, beq_iff_eq, not_exists, not_and]
    intro z hz hzeq
    have := connIds_lt uid m f hbb z hz
    omega
  have h1 : (stripHydrogensOf aid m).atoms.filter
      (fun y => (connectedHydrogenIds uid (bondTypeChangePass aid m f).1).contains y.id)
      = m.atoms.filter (fun y => (connectedHydrogenIds uid m).contains y.id) := by
    rw [List.filter_congr (fun y _ => hcont y.id)]
    show (m.atoms.filter _).filter _ = _
    rw [List.filter_filter]
    apply List.filter_congr
    intro y hy
    by_cases hmem : y.id ∈ connectedHydrogenIds uid m
    · have hc : (connectedHydrogenIds uid m).contains y.id = true := by
        simpa using hmem
      have hnot : ∀ x ∈ getConnectedHydrogens aid m, ¬x.id = y.id := by
        intro x hx hxy
        have hxid := ((mem_getConnectedHydrogens aid m x).mp hx).2
        exact hdisj y.id hmem (hxy ▸ hxid)
      simp only [hc, hmem]
      simpa using hnot
    · have hc : (connectedHydrogenIds uid m).contains y.id = false := by
        simpa using hmem
      simp [hc, hmem]
  rw [h1, h2, List.length_nil, Nat.add_zero]

/-- Any bond-type-change pass leaves its own id settled. -/
theorem settled_after_pass (aid : Nat) (m : Molecule) (f : Nat)
    (hba : ∀ x ∈ m.atoms, x.id < f)
    (hbb : ∀ b ∈ m.bonds, b.sourceAtomId < f ∧ b.targetAtomId < f) :
    Settled aid (bondTypeChangePass aid m f).1 := by
  rcases bondTypeChangePass_cases aid m f with ⟨heq, hreason⟩ | ⟨a, hf, hH, heq⟩
  · rw [heq]
    show Settled aid m
    intro a' hfind' hH'
    exfalso
    rcases hreason with hnone | ⟨h, hfh, hhH⟩
    · rw [hfind'] at hnone
      cases hnone
    · rw [hfind'] at hfh
      cases hfh
      exact hH' hhH
  · obtain ⟨hA, hB, -⟩ := bondTypeChangePass_processed aid m f hf hH
    intro a' hfind' _hH'
    have hfr := bondTypeChangePass_preserves_found aid m f hf hH
    rw [hfr] at hfind'
    cases hfind'
    have hamem : a ∈ m.atoms := List.mem_of_find?_eq_some hf
    have haf : a.id < f := hba a hamem
    constructor
    · intro x hx b hb hincx
      rw [processed_connIds_self aid m f hf hH hba hbb] at hx
      obtain ⟨i, hi, rfl⟩ := hx
      rw [hB] at hb
      rcases List.mem_append.mp hb with hbs | hbf
      · exfalso
        have hbm := ((mem_stripHydrogensOf_bonds aid m b).mp hbs).1
        have := hbb b hbm
        rcases hincx with hsx | htx <;> omega
      · simp only [List.mem_map, List.mem_range] at hbf
        obtain ⟨j, hj, rfl⟩ := hbf
        rcases hincx with hsx | htx
        · exfalso
          have : a.id = f + 2 * i := hsx
          omega
        · have hji : f + 2 * j = f + 2 * i := htx
          have : j = i := by omega
          subst this
          exact ⟨found_id_eq hf, rfl⟩
    · show countHydrogens aid (bondTypeChangePass aid m f).1
        = getRequiredHydrogens a (stripHydrogensOf aid (bondTypeChangePass aid m f).1).bonds
      rw [processed_countH_self aid m f hf hH hba hbb,
        processed_strip_bonds aid m f hf hH hba hbb]
      rfl

/-- A processed pass at one id does not change another settled-style atom's
stripped bond count. -/
theorem processed_strip_other_count (bid : Nat) (m : Molecule) (f : Nat) {a : Atom}
    (hf : m.atoms.find? (fun x => x.id == bid) = some a) (hH : ¬a.element = .H)
    (_hba : ∀ x ∈ m.atoms, x.id < f)
    (hbb : ∀ b ∈ m.bonds, b.sourceAtomId < f ∧ b.targetAtomId < f)
    (uid : Nat) (huidf : uid < f) (huidne : ¬uid = bid)
    (hkey : ∀ x ∈ connectedHydrogenIds uid m,
      ∃ b ∈ (stripHydrogensOf bid m).bonds, contributesHydrogen uid m b x)
    (hnotconn : uid ∉ connectedHydrogenIds bid m) :
    getAtomBondCount uid (stripHydrogensOf uid (bondTypeChangePass bid m f).1).bonds
      = getAtomBondCount uid (stripHydrogensOf uid m).bonds := by
  obtain ⟨-, hB, -⟩ := bondTypeChangePass_processed bid m f hf hH
  have hiff := processed_connIds_other bid m f hf hH hbb uid huidf huidne hkey
  have hcontR : ∀ z, (((getConnectedHydrogens uid (bondTypeChangePass bid m f).1).map (·.id)).contains z)
      = (((getConnectedHydrogens uid m).map (·.id)).contains z) := by
    apply contains_eq_of_mem_iff
    intro z
    rw [mem_getConnectedHydrogens_ids, mem_getConnectedHydrogens_ids]
    exact hiff z
  show getAtomBondCount uid ((bondTypeChangePass bid m f).1.bonds.filter
      (fun b => !(((getConnectedHydrogens uid (bondTypeChangePass bid m f).1).map (·.id)).contains b.sourceAtomId)
        && !(((getConnectedHydrogens uid (bondTypeChangePass bid m f).1).map (·.id)).contains b.targetAtomId)))
    = getAtomBondCount uid (m.bonds.filter
      (fun b => !(((getConnectedHydrogens uid m).map (·.id)).contains b.sourceAtomId)
        && !(((getConnectedHydrogens uid m).map (·.id)).contains b.targetAtomId)))
  rw [List.filter_congr (fun b _ => by rw [hcontR b.sourceAtomId, hcontR b.targetAtomId])]
  rw [hB, List.filter_append, getAtomBondCount_append]
  have hfresh : getAtomBondCount uid
      (((List.range (passNeeded bid m a)).map (fun i => hydrogenBondAt a f i)).filter
        (fun b => !(((getConnectedHydrogens uid m).map (·.id)).contains b.sourceAtomId)
          && !(((getConnectedHydrogens uid m).map (·.id)).contains b.targetAtomId))) = 0 := by
    apply getAtomBondCount_eq_zero
    intro b hbmem
    have hb := (List.mem_filter.mp hbmem).1
    simp only [List.mem_map, List.mem_range] at hb
    obtain ⟨i, -, rfl⟩ := hb
    intro hinc
    rcases hinc with hs | ht
    · have hsu : a.id = uid := hs
      exact huidne ((hsu ▸ found_id_eq hf : (uid : Nat) = bid))
    · have htu : f + 2 * i = uid := ht
      omega
  rw [hfresh, Nat.add_zero]
  show getAtomBondCount uid ((m.bonds.filter
      (fun b => !(((getConnectedHydrogens bid m).map (·.id)).contains b.sourceAtomId)
        && !(((getConnectedHydrogens bid m).map (·.id)).contains b.targetAtomId))).filter
      (fun b => !(((getConnectedHydrogens uid m).map (·.id)).contains b.sourceAtomId)
        && !(((getConnectedHydrogens uid m).map (·.id)).contains b.targetAtomId))) = _
  rw [List.filter_filter]
  apply getAtomBondCount_filter_congr
  intro b hbm hinc
  by_cases hPm : (!(((getConnectedHydrogens uid m).map (·.id)).contains b.sourceAtomId)
      && !(((getConnectedHydrogens uid m).map (·.id)).contains b.targetAtomId)) = true
  · have hsrcm : b.sourceAtomId ∉ connectedHydrogenIds uid m := by
      have := (Bool.and_eq_true _ _).mp hPm
      rw [← mem_getConnectedHydrogens_ids]
      intro hin
      have : (((getConnectedHydrogens uid m).map (·.id)).contains b.sourceAtomId) = true := by
        simpa using hin
      rw [this] at hPm
      simp at hPm
    have htgtm : b.targetAtomId ∉ connectedHydrogenIds uid m := by
      rw [← mem_getConnectedHydrogens_ids]
      intro hin
      have : (((getConnectedHydrogens uid m).map (·.id)).contains b.targetAtomId) = true := by
        simpa using hin
      rw [this] at hPm
      simp at hPm
    have hsrcb : b.sourceAtomId ∉ connectedHydrogenIds bid m := by
      intro hin
      obtain ⟨aH, hfaH, haHH⟩ := find?_of_mem_connectedHydrogenIds bid m b.sourceAtomId hin
      by_cases hbsu : b.sourceAtomId = uid
      · exact hnotconn (hbsu ▸ hin)
      · rcases hinc with hs | ht
        · exact hbsu hs
        · exact hsrcm ((mem_connectedHydrogenIds uid m b.sourceAtomId).mpr
            ⟨b, hbm, Or.inr ⟨hbsu, ht, rfl⟩, aH, hfaH, haHH⟩)
    have htgtb : b.targetAtomId ∉ connectedHydrogenIds bid m := by
      intro hin
      obtain ⟨aH, hfaH, haHH⟩ := find?_of_mem_connectedHydrogenIds bid m b.targetAtomId hin
      by_cases hbtu : b.targetAtomId = uid
      · exact hnotconn (hbtu ▸ hin)
      · rcases hinc with hs | ht
        · exact htgtm ((mem_connectedHydrogenIds uid m b.targetAtomId).mpr
            ⟨b, hbm, Or.inl ⟨hs, rfl⟩, aH, hfaH, haHH⟩)
        · exact hbtu ht
    have hsb' : (((getConnectedHydrogens bid m).map (·.id)).contains b.sourceAtomId) = false := by
      rw [← Bool.not_eq_true]
      intro hc
      exact hsrcb ((mem_getConnectedHydrogens_ids bid m b.sourceAtomId).mp (by simpa using hc))
    have htb' : (((getConnectedHydrogens bid m).map (·.id)).contains b.targetAtomId) = false := by
      rw [← Bool.not_eq_true]
      intro hc
      exact htgtb ((mem_getConnectedHydrogens_ids bid m b.targetAtomId).mp (by simpa using hc))
    rw [hPm, hsb', htb']
    rfl
  · have hPm' : (!(((getConnectedHydrogens uid m).map (·.id)).contains b.sourceAtomId)
        && !(((getConnectedHydrogens uid m).map (·.id)).contains b.targetAtomId)) = false := by
      rw [← Bool.not_eq_true]
      exact hPm
    rw [hPm']
    simp

/-- A bond-type-change pass at one id preserves settledness at any other id. -/
theorem settled_preserved (bid : Nat) (m : Molecule) (f : Nat) (uid : Nat)
    (hne : ¬uid = bid)
    (hba : ∀ x ∈ m.atoms, x.id < f)
    (hbb : ∀ b ∈ m.bonds, b.sourceAtomId < f ∧ b.targetAtomId < f)
    (hst : Settled uid m) :
    Settled uid (bondTypeChangePass bid m f).1 := by
  rcases bondTypeChangePass_cases bid m f with ⟨heq, -⟩ | ⟨a, hf, hH, heq⟩
  · rw [heq]
    exact hst
  · obtain ⟨hA, hB, -⟩ := bondTypeChangePass_processed bid m f hf hH
    intro a' hfind' hH'
    have hmem' : a' ∈ (bondTypeChangePass bid m f).1.atoms := List.mem_of_find?_eq_some hfind'
    have hida' : a'.id = uid := found_id_eq_of_pred hfind'
    have huid_lt : uid < f := by
      rw [hA] at hmem'
      rcases List.mem_append.mp hmem' with hs | hfr
      · have := hba a' ((mem_stripHydrogensOf_atoms bid m a').mp hs).1
        omega
      · exfalso
        simp only [List.mem_map, List.mem_range] at hfr
        obtain ⟨i, -, hai⟩ := hfr
        apply hH'
        rw [← hai]
        rfl
    have hnotconn : uid ∉ connectedHydrogenIds bid m := by
      intro hin
      rw [processed_find?_stripped bid m f hf hH uid huid_lt hin] at hfind'
      cases hfind'
    have hfm : m.atoms.find? (fun y => y.id == uid) = some a' := by
      rw [← processed_find?_low bid m f hf hH uid huid_lt hnotconn]
      exact hfind'
    obtain ⟨hpriv, hcnt⟩ := hst a' hfm hH'
    have hdisj : ∀ x ∈ connectedHydrogenIds uid m, x ∉ connectedHydrogenIds bid m := by
      intro x hx hxb
      obtain ⟨b2, hb2m, hcon2⟩ := (mem_connectedHydrogenIds bid m x).mp hxb
      have hb2x : b2.sourceAtomId = x ∨ b2.targetAtomId = x := by
        rcases hcon2.1 with ⟨-, hxeq⟩ | ⟨-, -, hxeq⟩
        · exact Or.inr hxeq.symm
        · exact Or.inl hxeq.symm
      have hshape := hpriv x hx b2 hb2m hb2x
      rcases hcon2.1 with ⟨hsrc, -⟩ | ⟨-, htgt, hxeq⟩
      · exact hne (hshape.1 ▸ hsrc)
      · have h1 : x = uid := hxeq.trans hshape.1
        have h2 : x = bid := hshape.2 ▸ htgt
        exact hne (h1 ▸ h2)
    have hkey : ∀ x ∈ connectedHydrogenIds uid m,
        ∃ b ∈ (stripHydrogensOf bid m).bonds, contributesHydrogen uid m b x := by
      intro x hx
      obtain ⟨b, hbm, hcon⟩ := (mem_connectedHydrogenIds uid m x).mp hx
      have hbx : b.sourceAtomId = x ∨ b.targetAtomId = x := by
        rcases hcon.1 with ⟨-, hxeq⟩ | ⟨-, -, hxeq⟩
        · exact Or.inr hxeq.symm
        · exact Or.inl hxeq.symm
      have hshape := hpriv x hx b hbm hbx
      refine ⟨b, ?_, hcon⟩
      rw [mem_stripHydrogensOf_bonds]
      refine ⟨hbm, ?_, ?_⟩
      · rw [hshape.1]
        exact hnotconn
      · rw [hshape.2]
        exact hdisj x hx
    constructor
    · intro x hx b hb hincx
      have hxm := (processed_connIds_other bid m f hf hH hbb uid huid_lt hne hkey x).mp hx
      rw [hB] at hb
      rcases List.mem_append.mp hb with hbs | hbf
      · exact hpriv x hxm b ((mem_stripHydrogensOf_bonds bid m b).mp hbs).1 hincx
      · exfalso
        simp only [List.mem_map, List.mem_range] at hbf
        obtain ⟨i, hi, rfl⟩ := hbf
        rcases hincx with hsx | htx
        · obtain ⟨aH, hfaH, haHH⟩ := find?_of_mem_connectedHydrogenIds uid m x hxm
          have hxbid : x = bid := by
            have h1 : a.id = x := hsx
            exact h1 ▸ found_id_eq hf
          rw [hxbid] at hfaH
          rw [hf] at hfaH
          exact hH (by rw [show a = aH from Option.some.inj hfaH]; exact haHH)
        · have hxval : f + 2 * i = x := htx
          have := connIds_lt uid m f hbb x hxm
          omega
    · show countHydrogens uid (bondTypeChangePass bid m f).1
        = getRequiredHydrogens a' (stripHydrogensOf uid (bondTypeChangePass bid m f).1).bonds
      rw [processed_countH_other bid m f hf hH hba hbb uid huid_lt hne hkey hdisj, hcnt]
      apply getRequiredHydrogens_congr
      rw [hida']
      exact (processed_strip_other_count bid m f hf hH hba hbb uid huid_lt hne hkey hnotconn).symm

/-- An atom with no connected-hydrogen ids has hydrogen count zero. -/
theorem countHydrogens_eq_zero (uid : Nat) (X : Molecule)
    (h : ∀ x, x ∉ connectedHydrogenIds uid X) : countHydrogens uid X = 0 := by
  unfold countHydrogens getConnectedHydrogens
  have hnil : X.atoms.filter (fun a => (connectedHydrogenIds uid X).contains a.id) = [] := by
    rw [List.filter_eq_nil_iff]
    intro y hy
    simp only [List.contains_eq_any_beq, List.any_eq_true, beq_iff_eq, not_exists, not_and]
    intro z hz
    exact absurd hz (h z)
  rw [hnil]
  rfl

/-- A bond-type-change pass at a settled id preserves every hydrogen count
below the fresh counter. -/
theorem settled_pass_counts (aid : Nat) (m : Molecule) (f : Nat)
    (hba : ∀ x ∈ m.atoms, x.id < f)
    (hbb : ∀ b ∈ m.bonds, b.sourceAtomId < f ∧ b.targetAtomId < f)
    (hst : Settled aid m) :
    ∀ uid, uid < f → countHydrogens uid (bondTypeChangePass aid m f).1 = countHydrogens uid m := by
  intro uid huid
  rcases bondTypeChangePass_cases aid m f with ⟨heq, -⟩ | ⟨a, hf, hH, heq⟩
  · rw [heq]
  · obtain ⟨hpriv, hcnt⟩ := hst a hf hH
    obtain ⟨hA, hB, -⟩ := bondTypeChangePass_processed aid m f hf hH
    by_cases he : uid = aid
    · subst he
      rw [processed_countH_self uid m f hf hH hba hbb, hcnt]
      rfl
    · by_cases huidin : uid ∈ connectedHydrogenIds aid m
      · have hm0 : countHydrogens uid m = 0 := by
          apply countHydrogens_eq_zero
          intro x hx
          obtain ⟨b, hbm, hcon⟩ := (mem_connectedHydrogenIds uid m x).mp hx
          rcases hcon.1 with ⟨hsrc, hxeq⟩ | ⟨hnsrc, htgt, hxeq⟩
          · have hshape := hpriv uid huidin b hbm (Or.inl hsrc)
            exact he (hsrc.symm.trans hshape.1)
          · have hshape := hpriv uid huidin b hbm (Or.inr htgt)
            obtain ⟨aH, hfaH, haHH⟩ := hcon.2
            rw [hxeq, hshape.1, hf] at hfaH
            exact hH (by rw [show a = aH from Option.some.inj hfaH]; exact haHH)
        have hR0 : countHydrogens uid (bondTypeChangePass aid m f).1 = 0 := by
          apply countHydrogens_eq_zero
          intro x hx
          obtain ⟨b, hb, hcon⟩ := (mem_connectedHydrogenIds uid _ x).mp hx
          rw [hB] at hb
          rcases List.mem_append.mp hb with hbs | hbf
          · obtain ⟨hbm, hs, ht⟩ := (mem_stripHydrogensOf_bonds aid m b).mp hbs
            rcases hcon.1 with ⟨hsrc, -⟩ | ⟨-, htgt, -⟩
            · exact hs (by rw [hsrc]; exact huidin)
            · exact ht (by rw [htgt]; exact huidin)
          · simp only [List.mem_map, List.mem_range] at hbf
            obtain ⟨i, hi, rfl⟩ := hbf
            rcases hcon.1 with ⟨hsrc, -⟩ | ⟨-, htgt, -⟩
            · have h1 : a.id = uid := hsrc
              exact he (h1.symm.trans (found_id_eq hf))
            · have h2 : f + 2 * i = uid := htgt
              have := connIds_lt aid m f hbb uid huidin
              omega
        rw [hR0, hm0]
      · have hdisj : ∀ x ∈ connectedHydrogenIds uid m, x ∉ connectedHydrogenIds aid m := by
          intro x hx hxin
          obtain ⟨b, hbm, hcon⟩ := (mem_connectedHydrogenIds uid m x).mp hx
          have hbx : b.sourceAtomId = x ∨ b.targetAtomId = x := by
            rcases hcon.1 with ⟨-, hxeq⟩ | ⟨-, -, hxeq⟩
            · exact Or.inr hxeq.symm
            · exact Or.inl hxeq.symm
          have hshape := hpriv x hxin b hbm hbx
          rcases hcon.1 with ⟨hsrc, -⟩ | ⟨-, htgt, hxeq⟩
          · exact he (hsrc.symm.trans hshape.1)
          · have h1 : x = uid := hshape.2.symm.trans htgt
            have h2 : x = aid := hxeq.trans hshape.1
            exact he (h1.symm.trans h2)
        have hkey : ∀ x ∈ connectedHydrogenIds uid m,
            ∃ b ∈ (stripHydrogensOf aid m).bonds, contributesHydrogen uid m b x := by
          intro x hx
          obtain ⟨b, hbm, hcon⟩ := (mem_connectedHydrogenIds uid m x).mp hx
          refine ⟨b, ?_, hcon⟩
          rw [mem_stripHydrogensOf_bonds]
          refine ⟨hbm, ?_, ?_⟩
          · intro hin
            have hshape := hpriv b.sourceAtomId hin b hbm (Or.inl rfl)
            rcases hcon.1 with ⟨hsrc, hxeq⟩ | ⟨hnsrc, htgt, hxeq⟩
            · exact he (hsrc.symm.trans hshape.1)
            · obtain ⟨aH, hfaH, haHH⟩ := hcon.2
              rw [hxeq, hshape.1, hf] at hfaH
              exact hH (by rw [show a = aH from Option.some.inj hfaH]; exact haHH)
          · intro hin
            have hshape := hpriv b.targetAtomId hin b hbm (Or.inr rfl)
            rcases hcon.1 with ⟨hsrc, hxeq⟩ | ⟨hnsrc, htgt, hxeq⟩
            · exact he (hsrc.symm.trans hshape.1)
            · exact huidin (by rw [← htgt]; exact hin)
        exact processed_countH_other aid m f hf hH hba hbb uid huid he hkey hdisj

/-- The bond-type-change reconciler leaves its target id settled. -/
theorem btc_settled_t (sId tId : Nat) (m : Molecule) :
    Settled tId (updateHydrogensAfterBondTypeChange sId tId m) := by
  show Settled tId (bondTypeChangePass tId
    (bondTypeChangePass sId m (nextFresh m)).1
    (bondTypeChangePass sId m (nextFresh m)).2).1
  apply settled_after_pass
  · exact bondTypeChangePass_atom_id_lt sId m (nextFresh m)
      (fun x hx => atom_id_lt_nextFresh m x hx)
  · exact bondTypeChangePass_bond_id_lt sId m (nextFresh m)
      (fun x hx => atom_id_lt_nextFresh m x hx)
      (fun b hb => ⟨bond_source_lt_nextFresh m b hb, bond_target_lt_nextFresh m b hb⟩)

/-- The bond-type-change reconciler leaves its source id settled. -/
theorem btc_settled_s (sId tId : Nat) (m : Molecule) :
    Settled sId (updateHydrogensAfterBondTypeChange sId tId m) := by
  by_cases hst : sId = tId
  · subst hst
    exact btc_settled_t sId sId m
  · show Settled sId (bondTypeChangePass tId
      (bondTypeChangePass sId m (nextFresh m)).1
      (bondTypeChangePass sId m (nextFresh m)).2).1
    apply settled_preserved tId
      (bondTypeChangePass sId m (nextFresh m)).1
      (bondTypeChangePass sId m (nextFresh m)).2 sId hst
    · exact bondTypeChangePass_atom_id_lt sId m (nextFresh m)
        (fun x hx => atom_id_lt_nextFresh m x hx)
    · exact bondTypeChangePass_bond_id_lt sId m (nextFresh m)
        (fun x hx => atom_id_lt_nextFresh m x hx)
        (fun b hb => ⟨bond_source_lt_nextFresh m b hb, bond_target_lt_nextFresh m b hb⟩)
    · exact settled_after_pass sId m (nextFresh m)
        (fun x hx => atom_id_lt_nextFresh m x hx)
        (fun b hb => ⟨bond_source_lt_nextFresh m b hb, bond_target_lt_nextFresh m b hb⟩)

/-- C4: applying `updateHydrogensAfterBondTypeChange(s, t, ·)` twice in a row
yields, for every non-hydrogen atom of the once-updated molecule, the same
number of directly bonded hydrogen atoms as after applying it once. -/
theorem claim_C4 (m : Molecule) (sId tId : Nat) (a : Atom)
    (ha : a ∈ (updateHydrogensAfterBondTypeChange sId tId m).atoms)
    (_haH : ¬a.element = ElementSymbol.H) :
    countHydrogens a.id
        (updateHydrogensAfterBondTypeChange sId tId (updateHydrogensAfterBondTypeChange sId tId m))
      = countHydrogens a.id (updateHydrogensAfterBondTypeChange sId tId m) := by
  have hba2 : ∀ x ∈ (updateHydrogensAfterBondTypeChange sId tId m).atoms,
      x.id < nextFresh (updateHydrogensAfterBondTypeChange sId tId m) :=
    fun x hx => atom_id_lt_nextFresh _ x hx
  have hbb2 : ∀ b ∈ (updateHydrogensAfterBondTypeChange sId tId m).bonds,
      b.sourceAtomId < nextFresh (updateHydrogensAfterBondTypeChange sId tId m)
        ∧ b.targetAtomId < nextFresh (updateHydrogensAfterBondTypeChange sId tId m) :=
    fun b hb => ⟨bond_source_lt_nextFresh _ b hb, bond_target_lt_nextFresh _ b hb⟩
  have hD1 := settled_pass_counts sId (updateHydrogensAfterBondTypeChange sId tId m)
    (nextFresh (updateHydrogensAfterBondTypeChange sId tId m)) hba2 hbb2
    (btc_settled_s sId tId m)
  have hsetT3 : Settled tId (bondTypeChangePass sId (updateHydrogensAfterBondTypeChange sId tId m)
      (nextFresh (updateHydrogensAfterBondTypeChange sId tId m))).1 := by
    by_cases hst : sId = tId
    · subst hst
      exact settled_after_pass sId (updateHydrogensAfterBondTypeChange sId sId m)
        (nextFresh (updateHydrogensAfterBondTypeChange sId sId m)) hba2 hbb2
    · exact settled_preserved sId (updateHydrogensAfterBondTypeChange sId tId m)
        (nextFresh (updateHydrogensAfterBondTypeChange sId tId m)) tId
        (fun h => hst h.symm) hba2 hbb2 (btc_settled_t sId tId m)
  have hba3 := bondTypeChangePass_atom_id_lt sId (updateHydrogensAfterBondTypeChange sId tId m)
    (nextFresh (updateHydrogensAfterBondTypeChange sId tId m)) hba2
  have hbb3 := bondTypeChangePass_bond_id_lt sId (updateHydrogensAfterBondTypeChange sId tId m)
    (nextFresh (updateHydrogensAfterBondTypeChange sId tId m)) hba2 hbb2
  have hD2 := settled_pass_counts tId
    (bondTypeChangePass sId (updateHydrogensAfterBondTypeChange sId tId m)
      (nextFresh (updateHydrogensAfterBondTypeChange sId tId m))).1
    (bondTypeChangePass sId (updateHydrogensAfterBondTypeChange sId tId m)
      (nextFresh (updateHydrogensAfterBondTypeChange sId tId m))).2
    hba3 hbb3 hsetT3
  have haid : a.id < nextFresh (updateHydrogensAfterBondTypeChange sId tId m) :=
    atom_id_lt_nextFresh _ a ha
  have hsnd := bondTypeChangePass_snd_le sId (updateHydrogensAfterBondTypeChange sId tId m)
    (nextFresh (updateHydrogensAfterBondTypeChange sId tId m))
  show countHydrogens a.id (bondTypeChangePass tId
      (bondTypeChangePass sId (updateHydrogensAfterBondTypeChange sId tId m)
        (nextFresh (updateHydrogensAfterBondTypeChange sId tId m))).1
      (bondTypeChangePass sId (updateHydrogensAfterBondTypeChange sId tId m)
        (nextFresh (updateHydrogensAfterBondTypeChange sId tId m))).2).1
    = countHydrogens a.id (updateHydrogensAfterBondTypeChange sId tId m)
  rw [hD2 a.id (by omega), hD1 a.id haid]

/-- C4 witness: the lonely carbon with ids 5, 5 (both passes find no atom, so
the reconciler is the identity and the carbon survives the first call). -/
theorem claim_C4_witness :
    (⟨0, .C, ((0 : ℝ), 0)⟩ : Atom) ∈ (updateHydrogensAfterBondTypeChange 5 5 lonelyCarbon).atoms
      ∧ ¬(⟨0, .C, ((0 : ℝ), 0)⟩ : Atom).element = ElementSymbol.H
      ∧ countHydrogens (⟨0, .C, ((0 : ℝ), 0)⟩ : Atom).id
          (updateHydrogensAfterBondTypeChange 5 5 (updateHydrogensAfterBondTypeChange 5 5 lonelyCarbon))
        = countHydrogens (⟨0, .C, ((0 : ℝ), 0)⟩ : Atom).id
            (updateHydrogensAfterBondTypeChange 5 5 lonelyCarbon) := by
  have hmem : (⟨0, .C, ((0 : ℝ), 0)⟩ : Atom)
      ∈ (updateHydrogensAfterBondTypeChange 5 5 lonelyCarbon).atoms := by
    show (⟨0, .C, ((0 : ℝ), 0)⟩ : Atom) ∈ lonelyCarbon.atoms
    show (⟨0, .C, ((0 : ℝ), 0)⟩ : Atom) ∈ [⟨0, .C, ((0 : ℝ), 0)⟩]
    exact List.mem_singleton.mpr rfl
  have hHne : ¬(⟨0, .C, ((0 : ℝ), 0)⟩ : Atom).element = ElementSymbol.H := by
    intro h
    cases h
  exact ⟨hmem, hHne, claim_C4 lonelyCarbon 5 5 (⟨0, .C, ((0 : ℝ), 0)⟩ : Atom) hmem hHne⟩

/-- A min-fold never exceeds its initial value. -/
theorem foldl_min_le_init (g : ℝ → ℝ) (l : List ℝ) (init : ℝ) :
    l.foldl (fun acc t => min acc (g t)) init ≤ init := by
  induction l generalizing init with
  | nil => simp
  | cons c l ih =>
    simp only [List.foldl_cons]
    exact le_trans (ih (min init (g c))) (min_le_left _ _)

/-- A min-fold never exceeds the value of any list element. -/
theorem foldl_min_le (g : ℝ → ℝ) (l : List ℝ) (init : ℝ) (θ : ℝ) (hθ : θ ∈ l) :
    l.foldl (fun acc t => min acc (g t)) init ≤ g θ := by
  induction l generalizing init with
  | nil => cases hθ
  | cons c l ih =>
    simp only [List.foldl_cons]
    rcases List.mem_cons.mp hθ with rfl | hmem
    · exact le_trans (foldl_min_le_init g l _) (min_le_right _ _)
    · exact ih _ hmem

/-- A min-fold of positive values from a positive start stays positive. -/
theorem foldl_min_pos (g : ℝ → ℝ) (l : List ℝ) (init : ℝ) (hinit : 0 < init)
    (hall : ∀ θ ∈ l, 0 < g θ) :
    0 < l.foldl (fun acc t => min acc (g t)) init := by
  induction l generalizing init with
  | nil => simpa
  | cons c l ih =>
    simp only [List.foldl_cons]
    exact ih _ (lt_min hinit (hall c (by simp))) (fun θ hθ => hall θ (by simp [hθ]))

/-- The normalized angular distance of an angle to itself is zero. -/
theorem normalizedAngleDiff_self (c : ℝ) : normalizedAngleDiff c c = 0 := by
  unfold normalizedAngleDiff
  rw [sub_self, abs_zero, sub_zero]
  exact min_eq_left (by positivity)

/-- For a candidate in the lower half-turn and an obstacle strictly inside
`(-π, 2π)`, the normalized angular distance is positive unless they are
exactly equal. -/
theorem normalizedAngleDiff_pos (c θ : ℝ) (hc0 : 0 ≤ c) (hcπ : c ≤ π)
    (hθl : -π < θ) (hθu : θ < 2 * π) (hne : ¬θ = c) : 0 < normalizedAngleDiff c θ := by
  unfold normalizedAngleDiff
  apply lt_min
  · rw [abs_pos, sub_ne_zero]
    exact fun h => hne h.symm
  · have h1 : |c - θ| < 2 * π := by
      rw [abs_lt]
      constructor <;> nlinarith [Real.pi_pos]
    linarith

/-- Every candidate angle lies in `[0, 2π)`. -/
theorem candidateAngles_range (c : ℝ) (hc : c ∈ candidateAngles) : 0 ≤ c ∧ c < 2 * π := by
  unfold candidateAngles at hc
  rw [List.mem_map] at hc
  obtain ⟨k, hk, rfl⟩ := hc
  rw [List.mem_range] at hk
  constructor
  · positivity
  · have hπ := Real.pi_pos
    have hk' : (k : ℝ) ≤ 11 := by
      exact_mod_cast Nat.le_of_lt_succ hk
    nlinarith

/-- `Math.atan2` angles lie in `(-π, π]`. -/
theorem angleFrom_range (c p : ℝ × ℝ) : -π < angleFrom c p ∧ angleFrom c p ≤ π := by
  unfold angleFrom atan2
  exact ⟨Complex.neg_pi_lt_arg _, Complex.arg_le_pi _⟩

/-- Every bond order is at least one. -/
theorem one_le_BOND_ORDER (t : BondType) : 1 ≤ BOND_ORDER t := by
  cases t <;> decide

/-- There are at most as many bonds touching an atom as its bond-order sum. -/
theorem length_filter_le_getAtomBondCount (atomId : Nat) (bonds : List Bond) :
    (bonds.filter (fun b => b.sourceAtomId == atomId || b.targetAtomId == atomId)).length
      ≤ getAtomBondCount atomId bonds := by
  induction bonds with
  | nil => simp [getAtomBondCount_nil]
  | cons b l ih =>
    rw [getAtomBondCount_cons]
    by_cases hinc : incident atomId b
    · have hb : (b.sourceAtomId == atomId || b.targetAtomId == atomId) = true := by
        rcases hinc with h | h <;> simp [h]
      rw [if_pos hinc]
      have := one_le_BOND_ORDER b.type
      rw [List.filter_cons, if_pos hb, List.length_cons]
      omega
    · have hb : ¬(b.sourceAtomId == atomId || b.targetAtomId == atomId) = true := by
        simp only [incident, not_or] at hinc
        simp [hinc.1, hinc.2]
      rw [if_neg hinc]
      rw [List.filter_cons, if_neg hb]
      omega

/-- The bonded heavy-atom angle list is no longer than the atom's bond-order
sum. -/
theorem bondedHeavyAngles_length_le (atom : Atom) (atomId : Nat) (m : Molecule) :
    (bondedHeavyAngles atom atomId m).length ≤ getAtomBondCount atomId m.bonds := by
  unfold bondedHeavyAngles
  rw [List.length_map]
  refine le_trans (List.length_filter_le _ _) (le_trans (List.length_filterMap_le _ _) ?_)
  exact length_filter_le_getAtomBondCount atomId m.bonds

/-- With at most six obstacle angles, all inside `(-π, 2π)`, some candidate
angle keeps a positive minimum distance: the seven candidates of the lower
half-turn cannot all be hit exactly. -/
theorem exists_free_candidate (hydro atoms : List ℝ)
    (hrange : ∀ θ ∈ hydro ++ atoms, -π < θ ∧ θ < 2 * π)
    (hlen : (hydro ++ atoms).length ≤ 6) :
    ∃ c ∈ candidateAngles, 0 < candidateMinDistance c hydro atoms := by
  by_contra hcon
  push_neg at hcon
  have hhit : ∀ k : Fin 7, ((k : Nat) : ℝ) * (π / 6) ∈ hydro ++ atoms := by
    intro k
    have hk12 : (k : Nat) < 12 := by omega
    have hmemc : ((k : Nat) : ℝ) * (π / 6) ∈ candidateAngles := by
      unfold candidateAngles
      exact List.mem_map.mpr ⟨(k : Nat), List.mem_range.mpr hk12, rfl⟩
    have hle := hcon _ hmemc
    by_contra hnotin
    have hpos : 0 < candidateMinDistance (((k : Nat) : ℝ) * (π / 6)) hydro atoms := by
      unfold candidateMinDistance
      apply foldl_min_pos
      · positivity
      · intro θ hθ
        obtain ⟨hθl, hθu⟩ := hrange θ hθ
        apply normalizedAngleDiff_pos
        · positivity
        · have hk6 : ((k : Nat) : ℝ) ≤ 6 := by
            exact_mod_cast Nat.le_of_lt_succ k.isLt
          nlinarith [Real.pi_pos]
        · exact hθl
        · exact hθu
        · intro he
          exact hnotin (he ▸ hθ)
    exact absurd hle (not_le.mpr hpos)
  have hπ6 : (0 : ℝ) < π / 6 := by positivity
  have hinj : Function.Injective (fun k : Fin 7 => ((k : Nat) : ℝ) * (π / 6)) := by
    intro k1 k2 h
    simp only [] at h
    have hc := mul_right_cancel₀ hπ6.ne' h
    exact Fin.ext (Nat.cast_injective hc)
  classical
  have h1 : (Finset.univ.image (fun k : Fin 7 => ((k : Nat) : ℝ) * (π / 6))).card = 7 := by
    rw [Finset.card_image_of_injective _ hinj, Finset.card_univ, Fintype.card_fin]
  have hsub : (Finset.univ.image (fun k : Fin 7 => ((k : Nat) : ℝ) * (π / 6)))
      ⊆ (hydro ++ atoms).toFinset := by
    intro x hx
    simp only [Finset.mem_image] at hx
    obtain ⟨k, -, rfl⟩ := hx
    rw [List.mem_toFinset]
    exact hhit k
  have h2 := Finset.card_le_card hsub
  have h3 := List.toFinset_card_le (hydro ++ atoms)
  omega

/-- The fold invariant of the greedy angle selection: the running pair is the
start or a scanned candidate with its exact minimum distance, the recorded
distance never decreases, and it dominates every scanned candidate. -/
theorem chooseAngle_foldl_spec (hydro atoms : List ℝ) (l : List ℝ) :
    ∀ best : ℝ × ℝ,
      (0 < best.2 → candidateMinDistance best.1 hydro atoms = best.2) →
      (0 < (l.foldl (fun best c =>
            let d := candidateMinDistance c hydro atoms
            if best.2 < d then (c, d) else best) best).2 →
        candidateMinDistance (l.foldl (fun best c =>
            let d := candidateMinDistance c hydro atoms
            if best.2 < d then (c, d) else best) best).1 hydro atoms
          = (l.foldl (fun best c =>
            let d := candidateMinDistance c hydro atoms
            if best.2 < d then (c, d) else best) best).2
        ∧ ((l.foldl (fun best c =>
            let d := candidateMinDistance c hydro atoms
            if best.2 < d then (c, d) else best) best).1 = best.1
          ∨ (l.foldl (fun best c =>
            let d := candidateMinDistance c hydro atoms
            if best.2 < d then (c, d) else best) best).1 ∈ l))
      ∧ best.2 ≤ (l.foldl (fun best c =>
            let d := candidateMinDistance c hydro atoms
            if best.2 < d then (c, d) else best) best).2
      ∧ ∀ c ∈ l, candidateMinDistance c hydro atoms
          ≤ (l.foldl (fun best c =>
            let d := candidateMinDistance c hydro atoms
            if best.2 < d then (c, d) else best) best).2 := by
  induction l with
  | nil =>
    intro best hinv
    refine ⟨fun h => ⟨hinv h, Or.inl rfl⟩, le_refl _, ?_⟩
    intro c hc
    cases hc
  | cons c l ih =>
    intro best hinv
    simp only [List.foldl_cons]
    by_cases hlt : best.2 < candidateMinDistance c hydro atoms
    · have hstep : (let d := candidateMinDistance c hydro atoms
          if best.2 < d then (c, d) else best) = (c, candidateMinDistance c hydro atoms) := by
        simp only []
        rw [if_pos hlt]
      rw [hstep]
      obtain ⟨h1, h2, h3⟩ := ih (c, candidateMinDistance c hydro atoms) (fun _ => rfl)
      refine ⟨?_, le_trans (le_of_lt hlt) h2, ?_⟩
      · intro hpos
        obtain ⟨ha, hb⟩ := h1 hpos
        refine ⟨ha, ?_⟩
        rcases hb with he | hm
        · exact Or.inr (by rw [he]; exact List.mem_cons_self c l)
        · exact Or.inr (List.mem_cons_of_mem c hm)
      · intro c' hc'
        rcases List.mem_cons.mp hc' with rfl | hm
        · exact h2
        · exact h3 c' hm
    · have hstep : (let d := candidateMinDistance c hydro atoms
          if best.2 < d then (c, d) else best) = best := by
        simp only []
        rw [if_neg hlt]
      rw [hstep]
      obtain ⟨h1, h2, h3⟩ := ih best hinv
      refine ⟨?_, h2, ?_⟩
      · intro hpos
        obtain ⟨ha, hb⟩ := h1 hpos
        refine ⟨ha, ?_⟩
        rcases hb with he | hm
        · exact Or.inl he
        · exact Or.inr (List.mem_cons_of_mem c hm)
      · intro c' hc'
        rcases List.mem_cons.mp hc' with rfl | hm
        · exact le_trans (not_lt.mp hlt) h2
        · exact h3 c' hm

/-- When some candidate keeps a positive minimum distance, the chosen angle
has a positive minimum distance to every obstacle, and lies in `[0, 2π)`. -/
theorem chooseAngle_spec (hydro atoms : List ℝ)
    (hex : ∃ c ∈ candidateAngles, 0 < candidateMinDistance c hydro atoms) :
    0 < candidateMinDistance (chooseAngle hydro atoms) hydro atoms
      ∧ 0 ≤ chooseAngle hydro atoms ∧ chooseAngle hydro atoms < 2 * π := by
  obtain ⟨c0, hc0mem, hc0pos⟩ := hex
  obtain ⟨h1, h2, h3⟩ := chooseAngle_foldl_spec hydro atoms candidateAngles ((0 : ℝ), (0 : ℝ))
    (fun h => absurd h (lt_irrefl 0))
  have hrpos := lt_of_lt_of_le hc0pos (h3 c0 hc0mem)
  obtain ⟨ha, hb⟩ := h1 hrpos
  constructor
  · show 0 < candidateMinDistance (candidateAngles.foldl (fun best c =>
        let d := candidateMinDistance c hydro atoms
        if best.2 < d then (c, d) else best) ((0 : ℝ), (0 : ℝ))).1 hydro atoms
    rw [ha]
    exact hrpos
  · rcases hb with he | hm
    · constructor
      · show (0 : ℝ) ≤ (candidateAngles.foldl (fun best c =>
            let d := candidateMinDistance c hydro atoms
            if best.2 < d then (c, d) else best) ((0 : ℝ), (0 : ℝ))).1
        rw [he]
      · show (candidateAngles.foldl (fun best c =>
            let d := candidateMinDistance c hydro atoms
            if best.2 < d then (c, d) else best) ((0 : ℝ), (0 : ℝ))).1 < 2 * π
        rw [he]
        positivity
    · exact candidateAngles_range _ hm

/-- The collision-aware placement loop yields angles that avoid the existing
hydrogen angles, stay in `(-π, 2π)`, and are pairwise distinct, as long as at
most seven angles are in play overall. -/
theorem placeAngles_spec (atoms : List ℝ)
    (hatoms : ∀ θ ∈ atoms, -π < θ ∧ θ < 2 * π) :
    ∀ (n : Nat) (hydro : List ℝ), (∀ θ ∈ hydro, -π < θ ∧ θ < 2 * π) →
      hydro.length + atoms.length + n ≤ 7 →
      (∀ x ∈ placeAngles atoms hydro n, x ∉ hydro ∧ -π < x ∧ x < 2 * π)
        ∧ (placeAngles atoms hydro n).Nodup := by
  intro n
  induction n with
  | zero =>
    intro hydro _ _
    constructor
    · intro x hx
      simp [placeAngles] at hx
    · simp [placeAngles]
  | succ n ih =>
    intro hydro hhydro hlen
    have hOr : ∀ θ ∈ hydro ++ atoms, -π < θ ∧ θ < 2 * π := by
      intro θ hθ
      rcases List.mem_append.mp hθ with h | h
      · exact hhydro θ h
      · exact hatoms θ h
    have hOlen : (hydro ++ atoms).length ≤ 6 := by
      rw [List.length_append]
      omega
    have hex := exists_free_candidate hydro atoms hOr hOlen
    obtain ⟨hpos, h0le, hlt2π⟩ := chooseAngle_spec hydro atoms hex
    have hcnot : chooseAngle hydro atoms ∉ hydro := by
      intro hmem
      have hle : candidateMinDistance (chooseAngle hydro atoms) hydro atoms
          ≤ normalizedAngleDiff (chooseAngle hydro atoms) (chooseAngle hydro atoms) := by
        unfold candidateMinDistance
        exact foldl_min_le _ _ _ _ (List.mem_append_left _ hmem)
      rw [normalizedAngleDiff_self] at hle
      exact absurd (lt_of_lt_of_le hpos hle) (lt_irrefl 0)
    have hstep : placeAngles atoms hydro (n + 1)
        = chooseAngle hydro atoms
            :: placeAngles atoms (hydro ++ [chooseAngle hydro atoms]) n := rfl
    rw [hstep]
    have hhydro' : ∀ θ ∈ hydro ++ [chooseAngle hydro atoms], -π < θ ∧ θ < 2 * π := by
      intro θ hθ
      rcases List.mem_append.mp hθ with h | h
      · exact hhydro θ h
      · rw [List.mem_singleton] at h
        subst h
        have hπ := Real.pi_pos
        exact ⟨by linarith, hlt2π⟩
    have hlen' : (hydro ++ [chooseAngle hydro atoms]).length + atoms.length + n ≤ 7 := by
      rw [List.length_append, List.length_singleton]
      omega
    obtain ⟨hmem', hnodup'⟩ := ih (hydro ++ [chooseAngle hydro atoms]) hhydro' hlen'
    constructor
    · intro x hx
      rcases List.mem_cons.mp hx with rfl | hxr
      · have hπ := Real.pi_pos
        exact ⟨hcnot, by linarith, hlt2π⟩
      · obtain ⟨hxn, hxr1, hxr2⟩ := hmem' x hxr
        exact ⟨fun hxh => hxn (List.mem_append_left _ hxh), hxr1, hxr2⟩
    · rw [List.nodup_cons]
      constructor
      · intro hcin
        obtain ⟨hxn, -, -⟩ := hmem' _ hcin
        exact hxn (List.mem_append_right _ (List.mem_singleton.mpr rfl))
      · exact hnodup'

/-- C5: when the collision-aware placement path of
`updateHydrogensAfterBondRemoval` runs (a found non-hydrogen atom needs more
hydrogens than it has, in particular two or more are added), the result
appends exactly one hydrogen per angle of `newHydrogenAngles`, and no two of
those angles are equal. -/
theorem claim_C5 (m : Molecule) (atomId : Nat) (a : Atom)
    (hf : m.atoms.find? (fun x => x.id == atomId) = some a)
    (hH : ¬a.element = ElementSymbol.H)
    (hneed : (getConnectedHydrogens atomId m).length < getRequiredHydrogens a m.bonds)
    (_htwo : 2 ≤ getRequiredHydrogens a m.bonds - (getConnectedHydrogens atomId m).length) :
    (updateHydrogensAfterBondRemoval atomId m).atoms
        = m.atoms ++ (newHydrogenAngles a atomId m).enum.map
            (fun p => hydrogenAtomAt a (nextFresh m) p.1 p.2)
      ∧ (newHydrogenAngles a atomId m).Nodup := by
  constructor
  · have hshape : updateHydrogensAfterBondRemoval atomId m
        = (if getRequiredHydrogens a m.bonds ≤ (getConnectedHydrogens atomId m).length
            then m
            else Molecule.mk
              (m.atoms ++ (newHydrogenAngles a atomId m).enum.map
                (fun p => hydrogenAtomAt a (nextFresh m) p.1 p.2))
              (m.bonds ++ (List.range (newHydrogenAngles a atomId m).length).map
                (fun i => hydrogenBondAt a (nextFresh m) i))) := by
      unfold updateHydrogensAfterBondRemoval
      split
      next hfind =>
        rw [hf] at hfind
        cases hfind
      next a' hfind =>
        rw [hf] at hfind
        cases hfind
        rw [if_neg hH]
    rw [if_neg (not_le.mpr hneed)] at hshape
    rw [hshape]
  · unfold newHydrogenAngles
    have hbrange : ∀ θ ∈ bondedHeavyAngles a atomId m, -π < θ ∧ θ < 2 * π := by
      intro θ hθ
      unfold bondedHeavyAngles at hθ
      rw [List.mem_map] at hθ
      obtain ⟨x, -, rfl⟩ := hθ
      obtain ⟨h1, h2⟩ := angleFrom_range a.position x.position
      have hπ := Real.pi_pos
      exact ⟨h1, by linarith⟩
    have hhrange : ∀ θ ∈ existingHydrogenAngles a atomId m, -π < θ ∧ θ < 2 * π := by
      intro θ hθ
      unfold existingHydrogenAngles at hθ
      rw [List.mem_map] at hθ
      obtain ⟨x, -, rfl⟩ := hθ
      obtain ⟨h1, h2⟩ := angleFrom_range a.position x.position
      have hπ := Real.pi_pos
      exact ⟨h1, by linarith⟩
    have hlen : (existingHydrogenAngles a atomId m).length + (bondedHeavyAngles a atomId m).length
        + (getRequiredHydrogens a m.bonds - (getConnectedHydrogens atomId m).length) ≤ 7 := by
      have hexlen : (existingHydrogenAngles a atomId m).length
          = (getConnectedHydrogens atomId m).length := by
        unfold existingHydrogenAngles
        rw [List.length_map]
      cases hbv : getBestValenceForBondCount a.element (getAtomBondCount a.id m.bonds) with
      | none =>
        have h0 := getRequiredHydrogens_eq_zero a m.bonds hbv
        omega
      | some t =>
        have hne := getRequiredHydrogens_eq a m.bonds t hbv
        have ht6 := getBestValenceForBondCount_le_six a.element
          (getAtomBondCount a.id m.bonds) t hbv
        have hheavy := bondedHeavyAngles_length_le a atomId m
        have hid : a.id = atomId := found_id_eq hf
        rw [hid] at hne
        omega
    exact (placeAngles_spec (bondedHeavyAngles a atomId m) hbrange _
      (existingHydrogenAngles a atomId m) hhrange hlen).2

/-- C5 witness: an isolated carbon needs four hydrogens and has none, so the
collision-aware path adds four; the theorem applies and their angles are
pairwise distinct. -/
theorem claim_C5_witness :
    lonelyCarbon.atoms.find? (fun x => x.id == 0) = some ⟨0, .C, ((0 : ℝ), 0)⟩
      ∧ (getConnectedHydrogens 0 lonelyCarbon).length
          < getRequiredHydrogens (⟨0, .C, ((0 : ℝ), 0)⟩ : Atom) lonelyCarbon.bonds
      ∧ 2 ≤ getRequiredHydrogens (⟨0, .C, ((0 : ℝ), 0)⟩ : Atom) lonelyCarbon.bonds
          - (getConnectedHydrogens 0 lonelyCarbon).length
      ∧ (newHydrogenAngles (⟨0, .C, ((0 : ℝ), 0)⟩ : Atom) 0 lonelyCarbon).Nodup := by
  refine ⟨rfl, by decide, by decide, ?_⟩
  exact (claim_C5 lonelyCarbon 0 ⟨0, .C, ((0 : ℝ), 0)⟩ rfl
    (by intro h; cases h) (by decide) (by decide)).2

/-- C8 witness: the crowded carbon around atom 0; its hydrogen with id 1 is a
hydrogen of the input. -/
theorem claim_C8_witness :
    ((∀ a ∈ (updateHydrogensAfterBonding 0 crowdedCarbon).atoms,
          ¬a.id = (⟨1, .H, ((1 : ℝ), 0)⟩ : Atom).id) →
        ∀ b ∈ (updateHydrogensAfterBonding 0 crowdedCarbon).bonds,
          ¬b.sourceAtomId = (⟨1, .H, ((1 : ℝ), 0)⟩ : Atom).id
            ∧ ¬b.targetAtomId = (⟨1, .H, ((1 : ℝ), 0)⟩ : Atom).id)
      ∧ ((∀ a ∈ (updateHydrogensAfterBondTypeChange 0 6 crowdedCarbon).atoms,
          ¬a.id = (⟨1, .H, ((1 : ℝ), 0)⟩ : Atom).id) →
        ∀ b ∈ (updateHydrogensAfterBondTypeChange 0 6 crowdedCarbon).bonds,
          ¬b.sourceAtomId = (⟨1, .H, ((1 : ℝ), 0)⟩ : Atom).id
            ∧ ¬b.targetAtomId = (⟨1, .H, ((1 : ℝ), 0)⟩ : Atom).id) :=
  claim_C8 crowdedCarbon 0 0 6 ⟨1, .H, ((1 : ℝ), 0)⟩
    (List.mem_cons_of_mem _ (List.mem_cons_self _ _)) rfl

end OrgoLab

